import Mathlib

/-!
OAuth dynamic client registration (pkg/oauth/client.go)

A shallow embedding of the client registry of `pkg/oauth/client.go`:
`checkMandatoryFields`, `Create`, `Update`, `TransformIDAndRev`, `GetAll`,
`FindClient`, `AcceptRedirectURI`, `CreateJWT` and `ValidToken`, with the
collaborators the file calls (document store, secret generator, token codec,
URL parser) made explicit.

Conventions of the embedding
* a Go method with pointer receiver `c *Client` that mutates `c` becomes a
  function that takes the client and returns the client it leaves behind;
* `*ClientRegistrationError` becomes `Option ClientRegistrationError`
  (`none` is Go's `nil`);
* the document store is an arbitrary state type `σ` with the operations of
  `pkg/couchdb` that the file calls; every call threads the store state;
* Go's `int` is the 64-bit two's complement integer: arithmetic on it is
  taken modulo `2^64` (`wrapInt`);
* calls to the logger have no influence on any returned value and are left
  out.
-/

namespace OAuth

/-! ## Go strings and `strconv` -/

/-- Go's `strings.HasPrefix` on the characters of the two strings. -/
def hasPrefixChars : List Char → List Char → Bool
  | _, [] => true
  | [], _ :: _ => false
  | a :: s, b :: p => decide (a = b) && hasPrefixChars s p

/-- Go's `strings.HasPrefix(s, p)`. -/
def HasPrefix (s p : String) : Bool := hasPrefixChars s.data p.data

/-- Go's slice expression `s[n:]`, used in the source only with `n` the
length of a string that `HasPrefix` has just matched. -/
def sliceFrom (s : String) (n : Nat) : String := String.mk (s.data.drop n)

/-- Go's `len(s)` counted in characters; `sliceFrom` uses the same unit. -/
def strLen (s : String) : Nat := s.data.length

/-- Smallest value of Go's `int` (64 bits). -/
def minInt : Int := -(2 ^ 63)

/-- Largest value of Go's `int` (64 bits). -/
def maxInt : Int := 2 ^ 63 - 1

/-- Two's complement wrap-around of a mathematical integer into Go's `int`. -/
def wrapInt (x : Int) : Int := (x + 2 ^ 63) % 2 ^ 64 - 2 ^ 63

/-- Value of an ASCII decimal digit. -/
def digitVal (ch : Char) : Option Nat :=
  if 48 ≤ ch.toNat ∧ ch.toNat ≤ 57 then some (ch.toNat - 48) else none

/-- Value of a run of decimal digits, `none` when a character is not a digit. -/
def parseDigits : List Char → Nat → Option Nat
  | [], acc => some acc
  | ch :: rest, acc =>
    match digitVal ch with
    | none => none
    | some v => parseDigits rest (acc * 10 + v)

/-- Go's `strconv.Atoi`: an optional sign, then at least one decimal digit,
and a value that fits in `int`; `none` stands for a non-nil error. -/
def Atoi (s : String) : Option Int :=
  match s.data with
  | [] => none
  | ch :: rest =>
    if ch = '-' then
      (if rest = [] then none
       else match parseDigits rest 0 with
         | none => none
         | some v => if v ≤ 2 ^ 63 then some (-(v : Int)) else none)
    else if ch = '+' then
      (if rest = [] then none
       else match parseDigits rest 0 with
         | none => none
         | some v => if v < 2 ^ 63 then some (v : Int) else none)
    else
      match parseDigits (ch :: rest) 0 with
      | none => none
      | some v => if v < 2 ^ 63 then some (v : Int) else none

/-- The character of a decimal digit. -/
def digitChar (d : Nat) : Char := Char.ofNat (48 + d)

/-- Decimal digits of a natural number, most significant first. -/
def natDigits : Nat → Nat → List Char
  | 0, _ => []
  | fuel + 1, n =>
    if n < 10 then [digitChar n] else natDigits fuel (n / 10) ++ [digitChar (n % 10)]

/-- Decimal representation of a natural number. -/
def decimal (n : Nat) : String := String.mk (natDigits (n + 1) n)

/-- Go's `strconv.Itoa`. -/
def Itoa (x : Int) : String :=
  if x < 0 then "-" ++ decimal x.natAbs else decimal x.natAbs

/-! ## Data model -/

/-- The fields of `instance.Instance` that the file reads. -/
structure Instance where
  Domain : String
  OAuthSecret : List Nat
  deriving DecidableEq, Repr

/-- The fields of `url.URL` that the file reads. -/
structure URL where
  Host : String
  Fragment : String
  deriving DecidableEq, Repr

/-- The `Client` struct. `Notifications` is carried as an association list;
no function of the registry reads it. -/
structure Client where
  CouchID : String
  CouchRev : String
  ClientID : String
  ClientSecret : String
  SecretExpiresAt : Int
  RegistrationToken : String
  AllowLoginScope : Bool
  RedirectURIs : List String
  GrantTypes : List String
  ResponseTypes : List String
  ClientName : String
  ClientKind : String
  ClientURI : String
  LogoURI : String
  PolicyURI : String
  SoftwareID : String
  SoftwareVersion : String
  Notifications : List (String × String)
  NotificationPlatform : String
  NotificationDeviceToken : String
  SynchronizedAt : Option String
  deriving DecidableEq, Repr

/-- The `ClientRegistrationError` struct. -/
structure ClientRegistrationError where
  Code : Nat
  Error : String
  Description : String
  deriving DecidableEq, Repr

/-- The value of `http.StatusBadRequest`. -/
def StatusBadRequest : Nat := 400

/-- The value of `http.StatusInternalServerError`. -/
def StatusInternalServerError : Nat := 500

/-- The constant `PlatformFirebase`. -/
def PlatformFirebase : String := "firebase"

/-- The constant `PlatformAPNS`. -/
def PlatformAPNS : String := "apns"

/-- The constant `ClientSecretLen`. -/
def ClientSecretLen : Nat := 24

/-- Modelled from the spec: `permissions.RegistrationTokenAudience`, the fixed
"registration" audience of section 4.1 step 6 (the constant is declared in
`pkg/permissions`). -/
def RegistrationTokenAudience : String := "registration"

/-- The claims handed to the token codec: `jwt.StandardClaims` with the
`Scope` of `permissions.Claims` (empty for plain standard claims). -/
structure Claims where
  Audience : String
  ExpiresAt : Int
  Id : String
  IssuedAt : Int
  Issuer : String
  NotBefore : Int
  Subject : String
  Scope : String
  deriving DecidableEq, Repr

/-- An error value of `pkg/couchdb`. -/
structure CouchError where
  StatusCode : Nat
  Name : String
  Reason : String
  deriving DecidableEq, Repr

/-- The selectors of `pkg/couchdb/mango` that the file builds. -/
inductive Filter where
  | StartWith (field value : String)
  | Equal (field value : String)
  | Exists (field : String)
  deriving DecidableEq, Repr

/-- The `couchdb.FindRequest` literal of the file. -/
structure FindRequest where
  UseIndex : String
  Selector : Filter
  Limit : Nat
  deriving DecidableEq, Repr

/-- The `couchdb.AllDocsRequest` literal of the file. -/
structure AllDocsRequest where
  Limit : Nat
  deriving DecidableEq, Repr

/-- The collaborators of the registry, over a document store with states `σ`.
Each store operation returns its result and the next store state.
`CreateDoc` answers with the identifier and revision it assigned (the source
receives them through `SetID` and `SetRev`), `UpdateDoc` with the new
revision. `ParseJWT` takes the key, the current time and the token, and
answers with the error, if any, and the claims it leaves in the variable the
source passes by reference. -/
structure Deps (σ : Type) where
  urlParse : String → Option URL
  ToLower : String → String
  FindDocs : σ → FindRequest → Except CouchError (List Client) × σ
  IsNoDatabaseError : CouchError → Bool
  CreateDoc : σ → Client → Except CouchError (String × String) × σ
  UpdateDoc : σ → Client → Except CouchError String × σ
  NewJWT : List Nat → Claims → Except String String
  ParseJWT : List Nat → Int → String → Option String × Claims
  GetDoc : σ → String → Except CouchError Client × σ
  GetAllDocs : σ → AllDocsRequest → Except CouchError (List Client) × σ

/-- What a call can observe besides its arguments: the document store, the
operating system's random byte stream with the number of bytes already
drawn, and the clock. -/
structure World (σ : Type) where
  db : σ
  entropy : Nat → Nat
  drawn : Nat
  now : Int

/-! ## Secret generator -/

/-- Modelled from the spec: `crypto.GenerateRandomBytes` (declared in
`pkg/crypto`), section 4.2: a byte sequence of the requested length drawn
from the secure random source. -/
def GenerateRandomBytes {σ : Type} (w : World σ) (n : Nat) : List Nat × World σ :=
  ((List.range n).map (fun k => w.entropy (w.drawn + k) % 256),
   { w with drawn := w.drawn + n })

/-- One character of the URL-safe base64 alphabet. -/
def b64Char (n : Nat) : Char :=
  if n < 26 then Char.ofNat (65 + n)
  else if n < 52 then Char.ofNat (97 + (n - 26))
  else if n < 62 then Char.ofNat (48 + (n - 52))
  else if n = 62 then '-' else '_'

/-- Base64 text of a byte sequence, three bytes to four characters, padded
with `=`. -/
def b64Chars : List Nat → List Char
  | [] => []
  | [a] => [b64Char (a / 4), b64Char (a % 4 * 16), '=', '=']
  | [a, b] => [b64Char (a / 4), b64Char (a % 4 * 16 + b / 16), b64Char (b % 16 * 4), '=']
  | a :: b :: c :: rest =>
    b64Char (a / 4) :: b64Char (a % 4 * 16 + b / 16) :: b64Char (b % 16 * 4 + c / 64)
      :: b64Char (c % 64) :: b64Chars rest

/-- Modelled from the spec: `crypto.Base64Encode` (declared in `pkg/crypto`),
section 4.2: the base64 text of the secret bytes. -/
def Base64Encode (bytes : List Nat) : String := String.mk (b64Chars bytes)

/-! ## The registry -/

/-- The method `TransformIDAndRev`. -/
def TransformIDAndRev (c : Client) : Client :=
  { c with ClientID := c.CouchID, CouchID := "", CouchRev := "" }

/-- The condition of the `if` inside the loop over `c.RedirectURIs`:
`err != nil || u.Host == i.Domain || u.Fragment != ""`. -/
def invalidRedirect {σ : Type} (d : Deps σ) (i : Instance) (redirectURI : String) : Bool :=
  match d.urlParse redirectURI with
  | none => true
  | some u => decide (u.Host = i.Domain) || decide (u.Fragment ≠ "")

/-- The loop over `c.RedirectURIs` of `checkMandatoryFields`: the first URI
at which the loop returns, if any. -/
def firstInvalidRedirect {σ : Type} (d : Deps σ) (i : Instance) : List String → Option String
  | [] => none
  | redirectURI :: rest =>
    if invalidRedirect d i redirectURI then some redirectURI
    else firstInvalidRedirect d i rest

/-- The method `checkMandatoryFields`: the error it returns and the client it
leaves behind. -/
def checkMandatoryFields {σ : Type} (d : Deps σ) (i : Instance) (c : Client) :
    Option ClientRegistrationError × Client :=
  if c.RedirectURIs.length = 0 then
    (some { Code := StatusBadRequest, Error := "invalid_redirect_uri",
            Description := "redirect_uris is mandatory" }, c)
  else
    match firstInvalidRedirect d i c.RedirectURIs with
    | some redirectURI =>
      (some { Code := StatusBadRequest, Error := "invalid_redirect_uri",
              Description := redirectURI ++ " is invalid" }, c)
    | none =>
      if c.ClientName = "" then
        (some { Code := StatusBadRequest, Error := "invalid_client_metadata",
                Description := "client_name is mandatory" }, c)
      else if c.SoftwareID = "" then
        (some { Code := StatusBadRequest, Error := "invalid_client_metadata",
                Description := "software_id is mandatory" }, c)
      else
        let c := { c with NotificationPlatform := d.ToLower c.NotificationPlatform }
        if c.NotificationPlatform = "" ∨ c.NotificationPlatform = PlatformFirebase
            ∨ c.NotificationPlatform = PlatformAPNS then (none, c)
        else if c.NotificationPlatform = "ios" ∨ c.NotificationPlatform = "android" then
          (none, c)
        else
          (some { Code := StatusBadRequest, Error := "invalid_client_metadata",
                  Description := "" }, c)

/-- The client `checkMandatoryFields` leaves behind when it accepts: the
candidate with its notification platform in lower case. -/
def lowered {σ : Type} (d : Deps σ) (c : Client) : Client :=
  { c with NotificationPlatform := d.ToLower c.NotificationPlatform }

/-- The error value returned for every storage or signing failure. -/
def internalServerError : ClientRegistrationError :=
  { Code := StatusInternalServerError, Error := "internal_server_error", Description := "" }

/-- The loop variables `n` and `found` of `Create`. -/
structure ScanState where
  n : Int
  found : Bool
  deriving DecidableEq, Repr

/-- One iteration of the loop over `results` in `Create`. -/
def scanStep (clientName pfx : String) (st : ScanState) (r : Client) : ScanState :=
  let name := r.ClientName
  if name = clientName then { st with found := true }
  else if !HasPrefix name pfx then st
  else
    match Atoi (sliceFrom name (strLen pfx)) with
    | some m => if m > st.n then { st with n := m } else st
    | none => st

/-- The loop over `results` in `Create`, from `n := 1`, `found := false`. -/
def scanResults (clientName : String) (results : List Client) : ScanState :=
  results.foldl (scanStep clientName (clientName ++ "-")) { n := 1, found := false }

/-- The value of `suffix` computed by `Create`; `n + 1` is Go `int`
arithmetic. -/
def nameSuffix (clientName : String) (results : List Client) : String :=
  if results.length > 0 then
    let st := scanResults clientName results
    if st.found then Itoa (wrapInt (st.n + 1)) else ""
  else ""

/-- The display name `Create` gives the client, from the candidate's name
and the results of the lookup. -/
def dedupName (clientName : String) (results : List Client) : String :=
  let suffix := nameSuffix clientName results
  if suffix ≠ "" then clientName ++ "-" ++ suffix else clientName

/-- The record `Create` hands to `couchdb.CreateDoc`: the validated
candidate after the renaming and the forced fields. -/
def createRecord (c : Client) (results : List Client) (secret : List Nat) : Client :=
  { c with
    ClientName := dedupName c.ClientName results
    CouchID := ""
    CouchRev := ""
    ClientID := ""
    ClientSecret := Base64Encode secret
    SecretExpiresAt := 0
    RegistrationToken := ""
    GrantTypes := ["authorization_code", "refresh_token"]
    ResponseTypes := ["code"] }

/-- The claims of the registration access token minted by `Create`. -/
def registrationClaims (i : Instance) (issuedAt : Int) (subject : String) : Claims :=
  { Audience := RegistrationTokenAudience, ExpiresAt := 0, Id := "", IssuedAt := issuedAt,
    Issuer := i.Domain, NotBefore := 0, Subject := subject, Scope := "" }

/-- The part of `Create` after the lookup: renaming, forced fields, secret,
`couchdb.CreateDoc`, registration token and `TransformIDAndRev`. -/
def createWith {σ : Type} (d : Deps σ) (i : Instance) (c : Client) (results : List Client)
    (w : World σ) : Option ClientRegistrationError × Client × World σ :=
  let drawn := GenerateRandomBytes w ClientSecretLen
  let c := createRecord c results drawn.1
  let w := drawn.2
  match d.CreateDoc w.db c with
  | (Except.error _, db) => (some internalServerError, c, { w with db := db })
  | (Except.ok (id, rev), db) =>
    let c := { c with CouchID := id, CouchRev := rev }
    let w := { w with db := db }
    match d.NewJWT i.OAuthSecret (registrationClaims i w.now c.CouchID) with
    | Except.error _ => (some internalServerError, { c with RegistrationToken := "" }, w)
    | Except.ok token => (none, TransformIDAndRev { c with RegistrationToken := token }, w)

/-- The method `Create`: the error it returns, the client it leaves behind
and the world after the call. -/
def Create {σ : Type} (d : Deps σ) (i : Instance) (c : Client) (w : World σ) :
    Option ClientRegistrationError × Client × World σ :=
  match checkMandatoryFields d i c with
  | (some err, c) => (some err, c, w)
  | (none, c) =>
    let req : FindRequest :=
      { UseIndex := "by-client-name", Selector := Filter.StartWith "client_name" c.ClientName,
        Limit := 0 }
    match d.FindDocs w.db req with
    | (Except.error err, db) =>
      if !d.IsNoDatabaseError err then (some internalServerError, c, { w with db := db })
      else createWith d i c [] { w with db := db }
    | (Except.ok results, db) => createWith d i c results { w with db := db }

/-- The assignments of `Update` between the secret rotation and
`couchdb.UpdateDoc`: identifier, revision and name pinned to the previous
version, the forced fields, and the notification fields falling back to the
previous ones. -/
def pinFields (c old : Client) : Client :=
  let c := { c with
    CouchID := old.CouchID
    CouchRev := old.CouchRev
    ClientName := old.ClientName
    ClientID := ""
    SecretExpiresAt := 0
    RegistrationToken := ""
    GrantTypes := ["authorization_code", "refresh_token"]
    ResponseTypes := ["code"] }
  let c := if c.NotificationPlatform = "" then
    { c with NotificationPlatform := old.NotificationPlatform } else c
  if c.NotificationDeviceToken = "" then
    { c with NotificationDeviceToken := old.NotificationDeviceToken } else c

/-- The part of `Update` before `couchdb.UpdateDoc`: the checks, the secret
rotation and `pinFields`. With no error, the client returned is the record
handed to the store. -/
def prepareUpdate {σ : Type} (d : Deps σ) (i : Instance) (c old : Client) (w : World σ) :
    Option ClientRegistrationError × Client × World σ :=
  if c.ClientID ≠ old.ClientID then
    (some { Code := StatusBadRequest, Error := "invalid_client_id",
            Description := "client_id is mandatory" }, c, w)
  else
    match checkMandatoryFields d i c with
    | (some err, c) => (some err, c, w)
    | (none, c) =>
      if c.ClientSecret = "" then
        (none, pinFields { c with ClientSecret := old.ClientSecret } old, w)
      else if c.ClientSecret = old.ClientSecret then
        let drawn := GenerateRandomBytes w ClientSecretLen
        (none, pinFields { c with ClientSecret := Base64Encode drawn.1 } old, drawn.2)
      else
        (some { Code := StatusBadRequest, Error := "invalid_client_secret",
                Description := "client_secret is invalid" }, c, w)

/-- The end of `Update`: `couchdb.UpdateDoc` on the prepared record, then
`TransformIDAndRev`. -/
def writeUpdate {σ : Type} (d : Deps σ) (c : Client) (w : World σ) :
    Option ClientRegistrationError × Client × World σ :=
  match d.UpdateDoc w.db c with
  | (Except.error _, db) => (some internalServerError, c, { w with db := db })
  | (Except.ok rev, db) =>
    (none, TransformIDAndRev { c with CouchRev := rev }, { w with db := db })

/-- The method `Update`: the error it returns, the client it leaves behind
and the world after the call. -/
def Update {σ : Type} (d : Deps σ) (i : Instance) (c old : Client) (w : World σ) :
    Option ClientRegistrationError × Client × World σ :=
  match prepareUpdate d i c old w with
  | (some err, c, w) => (some err, c, w)
  | (none, c, w) => writeUpdate d c w

/-! ## Lookups, redirect URIs and tokens -/

/-- The function `GetAll`: the clients of the store without their secrets, or
the error of the store. -/
def GetAll {σ : Type} (d : Deps σ) (w : World σ) : Except CouchError (List Client) × World σ :=
  match d.GetAllDocs w.db { Limit := 100 } with
  | (Except.error err, db) => (Except.error err, { w with db := db })
  | (Except.ok clients, db) =>
    (Except.ok (clients.map (fun client => { client with ClientSecret := "" })),
     { w with db := db })

/-- The function `FindClient`. -/
def FindClient {σ : Type} (d : Deps σ) (id : String) (w : World σ) :
    Except CouchError Client × World σ :=
  match d.GetDoc w.db id with
  | (Except.error err, db) => (Except.error err, { w with db := db })
  | (Except.ok c, db) =>
    (Except.ok (if c.ClientID = "" then { c with ClientID := c.CouchID } else c),
     { w with db := db })

/-- The loop of `AcceptRedirectURI` over the registered URIs. -/
def acceptLoop (u : String) : List String → Bool
  | [] => false
  | uri :: rest => if u = uri then true else acceptLoop u rest

/-- The method `AcceptRedirectURI`. -/
def AcceptRedirectURI (c : Client) (u : String) : Bool := acceptLoop u c.RedirectURIs

/-- The value `permissions.Claims{}`. -/
def zeroClaims : Claims :=
  { Audience := "", ExpiresAt := 0, Id := "", IssuedAt := 0, Issuer := "", NotBefore := 0,
    Subject := "", Scope := "" }

/-- Modelled from the spec: the method `Expired` of `permissions.Claims`
(declared in `pkg/permissions`), section 4.4 step 3: an expiry is checked only
when the claims carry one, and then it must not be passed. -/
def Expired (claims : Claims) (now : Int) : Bool :=
  decide (claims.ExpiresAt ≠ 0 ∧ claims.ExpiresAt < now)

/-- The claims signed by `CreateJWT`. -/
def accessClaims (i : Instance) (c : Client) (issuedAt : Int) (audience scope : String) :
    Claims :=
  { Audience := audience, ExpiresAt := 0, Id := "", IssuedAt := issuedAt, Issuer := i.Domain,
    NotBefore := 0, Subject := c.CouchID, Scope := scope }

/-- The method `CreateJWT`, at the time `now`. -/
def CreateJWT {σ : Type} (d : Deps σ) (i : Instance) (c : Client) (now : Int)
    (audience scope : String) : Except String String :=
  d.NewJWT i.OAuthSecret (accessClaims i c now audience scope)

/-- The method `ValidToken`, at the time `now`: the claims and the boolean it
returns. -/
def ValidToken {σ : Type} (d : Deps σ) (i : Instance) (c : Client) (now : Int)
    (audience token : String) : Claims × Bool :=
  if token = "" then (zeroClaims, false)
  else
    match d.ParseJWT i.OAuthSecret now token with
    | (some _, claims) => (claims, false)
    | (none, claims) =>
      if Expired claims now then (claims, false)
      else if claims.Audience ≠ audience then (claims, false)
      else if claims.Issuer ≠ i.Domain then (claims, false)
      else if claims.Subject ≠ c.CouchID then (claims, false)
      else (claims, true)

/-- Modelled from the spec: the contract of the token codec of section 4.3 for
two tenants (the codec is declared in `pkg/crypto`): a token signed with the
key of tenant A does not parse with the key of tenant B. -/
def SignatureRejected {σ : Type} (d : Deps σ) (keyA keyB : List Nat) : Prop :=
  ∀ (now : Int) (claims : Claims) (token : String),
    d.NewJWT keyA claims = Except.ok token → (d.ParseJWT keyB now token).1 ≠ none

/-- A bound on the length of a Go slice of pointers such as the `results` of
`Create` (`[]*Client`) on a 64-bit machine: each element takes 8 bytes of an
address space of `2^64` bytes. -/
def maxSliceLen : Nat := 2 ^ 61

/-- The world after `k` successive calls of `Create` with the same candidate. -/
def registerTimes {σ : Type} (d : Deps σ) (i : Instance) (c : Client) : Nat → World σ → World σ
  | 0, w => w
  | k + 1, w => (Create d i c (registerTimes d i c k w)).2.2

/-- The world after `Create` has been called with each candidate of a list in
turn. -/
def registerAll {σ : Type} (d : Deps σ) (i : Instance) : List Client → World σ → World σ
  | [], w => w
  | c :: cs, w => registerAll d i cs (Create d i c w).2.2

/-- The stored names that start with `N` after `j` successive registrations
of `N` on a store that had none: `N` itself and `N-2`, ..., `N-j`. -/
def Registered (N : String) (j : Nat) (docs : List Client) : Prop :=
  (∃ r ∈ docs, r.ClientName = N) ∧
  (∀ m, 2 ≤ m → m ≤ j → ∃ r ∈ docs, r.ClientName = N ++ "-" ++ decimal m) ∧
  (∀ r ∈ docs, HasPrefix r.ClientName N = true →
    r.ClientName = N ∨ ∃ m, 2 ≤ m ∧ m ≤ j ∧ r.ClientName = N ++ "-" ++ decimal m)

/-! ## An in-memory document store and example collaborators -/

/-- Modelled from the spec: the document store of section 6 (`pkg/couchdb` is
not part of the file), as the list of stored records in insertion order with
a counter for fresh identifiers. -/
structure MemStore where
  docs : List Client
  nextID : Nat
  deriving DecidableEq, Repr

/-- The value of a JSON field of a stored client, for the fields the
selectors of the file name. -/
def jsonField (field : String) (r : Client) : Option String :=
  if field = "client_name" then some r.ClientName
  else if field = "software_id" then some r.SoftwareID
  else if field = "notification_platform" then
    (if r.NotificationPlatform = "" then none else some r.NotificationPlatform)
  else none

/-- Whether a stored record satisfies a selector. -/
def matchesFilter (f : Filter) (r : Client) : Bool :=
  match f with
  | Filter.StartWith field value =>
    (match jsonField field r with
     | some v => HasPrefix v value
     | none => false)
  | Filter.Equal field value =>
    (match jsonField field r with
     | some v => decide (v = value)
     | none => false)
  | Filter.Exists field => (jsonField field r).isSome

/-- Modelled from the spec: `find(index_hint, predicate, limit) → [doc]` of
section 6: every stored record that satisfies the predicate, in insertion
order. -/
def MemStore.find (s : MemStore) (req : FindRequest) :
    Except CouchError (List Client) × MemStore :=
  (Except.ok (s.docs.filter (matchesFilter req.Selector)), s)

/-- Modelled from the spec: `create(doc) → id,revision` of section 6: the
record is stored under a fresh identifier. -/
def MemStore.create (s : MemStore) (c : Client) :
    Except CouchError (String × String) × MemStore :=
  let id := "id" ++ decimal s.nextID
  let rev := "1-" ++ id
  (Except.ok (id, rev),
   { docs := s.docs ++ [{ c with CouchID := id, CouchRev := rev }], nextID := s.nextID + 1 })

/-- The position of the next revision of a record. -/
def nextRev (rev : String) : String := rev ++ "+"

/-- Modelled from the spec: `update(doc_with_id_and_revision) → new_revision |
conflict_error` of section 6: the record with the document's identifier is
replaced when the revisions agree. -/
def MemStore.update (s : MemStore) (c : Client) : Except CouchError String × MemStore :=
  match s.docs.find? (fun r => decide (r.CouchID = c.CouchID)) with
  | none => (Except.error { StatusCode := 404, Name := "not_found", Reason := "missing" }, s)
  | some r =>
    if r.CouchRev = c.CouchRev then
      let rev := nextRev c.CouchRev
      (Except.ok rev,
       { s with docs := s.docs.map (fun x =>
          if x.CouchID = c.CouchID then { c with CouchRev := rev } else x) })
    else
      (Except.error { StatusCode := 409, Name := "conflict",
                      Reason := "Document update conflict." }, s)

/-- Characters up to the first one satisfying `stop`, and the rest. -/
def splitAtChar (stop : Char → Bool) : List Char → List Char × List Char
  | [] => ([], [])
  | ch :: rest =>
    if stop ch then ([], ch :: rest)
    else ((splitAtChar stop rest).1.cons ch, (splitAtChar stop rest).2)

/-- Drops a leading `scheme://` when there is one. -/
def dropScheme : List Char → List Char → List Char
  | [], whole => whole
  | ':' :: '/' :: '/' :: rest, _ => rest
  | _ :: rest, whole => dropScheme rest whole

/-- A small URL reader standing for `url.Parse` in the examples: it refuses a
string with a blank, and reads the host after `scheme://` and the fragment
after the first `#`. -/
def exampleParse (s : String) : Option URL :=
  if s.data.contains ' ' then none
  else
    let beforeFragment := splitAtChar (fun ch => ch == '#') s.data
    let afterScheme := dropScheme beforeFragment.1 []
    let host := (splitAtChar (fun ch => ch == '/' || ch == '?') afterScheme).1
    some { Host := String.mk host, Fragment := String.mk (beforeFragment.2.drop 1) }

/-- Modelled from the spec: `get(id) → doc | not_found` of section 6. -/
def MemStore.get (s : MemStore) (id : String) : Except CouchError Client × MemStore :=
  match s.docs.find? (fun r => decide (r.CouchID = id)) with
  | none => (Except.error { StatusCode := 404, Name := "not_found", Reason := "missing" }, s)
  | some r => (Except.ok r, s)

/-- Modelled from the spec: the listing of all documents of section 6, up to
the limit of the request. -/
def MemStore.allDocs (s : MemStore) (req : AllDocsRequest) :
    Except CouchError (List Client) × MemStore :=
  (Except.ok (s.docs.take req.Limit), s)

/-- The segments of a text between occurrences of a separator. -/
def splitOn (sep : Char) : List Char → List (List Char)
  | [] => [[]]
  | ch :: rest =>
    if ch = sep then [] :: splitOn sep rest
    else
      match splitOn sep rest with
      | [] => [[ch]]
      | seg :: segs => (ch :: seg) :: segs

/-- The token of the example codec: the key and the claims in clear, separated
by bars. -/
def exampleSign (key : List Nat) (cl : Claims) : Except String String :=
  Except.ok (Base64Encode key ++ "|" ++ cl.Audience ++ "|" ++ Itoa cl.ExpiresAt ++ "|" ++ cl.Id
    ++ "|" ++ Itoa cl.IssuedAt ++ "|" ++ cl.Issuer ++ "|" ++ Itoa cl.NotBefore ++ "|"
    ++ cl.Subject ++ "|" ++ cl.Scope)

/-- The parser of the example codec: it refuses a token that does not start
with the key, a token that does not have the eight fields of the claims, and a
token whose expiry is passed. -/
def exampleParseJWT (key : List Nat) (now : Int) (token : String) : Option String × Claims :=
  if !hasPrefixChars token.data ((Base64Encode key).data ++ ['|']) then
    (some "signature is invalid", zeroClaims)
  else
    match (splitOn '|' (token.data.drop ((Base64Encode key).data.length + 1))).map String.mk with
    | [aud, exp, id, iat, iss, nbf, sub, scope] =>
      (match Atoi exp, Atoi iat, Atoi nbf with
       | some e, some a, some n =>
         if e ≠ 0 ∧ e < now then
           (some "token is expired",
            { Audience := aud, ExpiresAt := e, Id := id, IssuedAt := a, Issuer := iss,
              NotBefore := n, Subject := sub, Scope := scope })
         else
           (none,
            { Audience := aud, ExpiresAt := e, Id := id, IssuedAt := a, Issuer := iss,
              NotBefore := n, Subject := sub, Scope := scope })
       | _, _, _ => (some "token is malformed", zeroClaims))
    | _ => (some "token is malformed", zeroClaims)

/-- The collaborators of the examples: the in-memory store, ASCII lower-casing
and a token codec that writes the key and the claims in clear. -/
def exampleDeps : Deps MemStore :=
  { urlParse := exampleParse
    ToLower := fun s => String.mk (s.data.map Char.toLower)
    FindDocs := MemStore.find
    IsNoDatabaseError := fun e => decide (e.Reason = "no_db_file")
    CreateDoc := MemStore.create
    UpdateDoc := MemStore.update
    NewJWT := exampleSign
    ParseJWT := exampleParseJWT
    GetDoc := MemStore.get
    GetAllDocs := MemStore.allDocs }

/-- The instance of the examples. -/
def exampleInstance : Instance := { Domain := "cozy.example", OAuthSecret := [1, 2, 3] }

/-- A candidate with only the three mandatory fields set. -/
def candidate (redirectURIs : List String) (clientName softwareID : String) : Client :=
  { CouchID := "", CouchRev := "", ClientID := "", ClientSecret := "", SecretExpiresAt := 0,
    RegistrationToken := "", AllowLoginScope := false, RedirectURIs := redirectURIs,
    GrantTypes := [], ResponseTypes := [], ClientName := clientName, ClientKind := "",
    ClientURI := "", LogoURI := "", PolicyURI := "", SoftwareID := softwareID,
    SoftwareVersion := "", Notifications := [], NotificationPlatform := "",
    NotificationDeviceToken := "", SynchronizedAt := none }

/-- A stored previous version for the examples of `Update`. -/
def previousVersion : Client :=
  { candidate ["https://app.example/cb"] "Foo" "sw1" with
    CouchID := "id0", CouchRev := "1-id0", ClientID := "id0", ClientSecret := "s3cr3t" }

/-- A candidate for `Update` with the identifier of `previousVersion`, a new
name and the given secret. -/
def updateCandidate (secret : String) : Client :=
  { candidate ["https://app.example/cb2"] "Bar" "sw1" with
    ClientID := "id0", ClientSecret := secret, SecretExpiresAt := 7,
    RegistrationToken := "tok", GrantTypes := ["implicit"] }

/-- A world over an empty in-memory store; the random source yields the byte
`k % 251` at position `k`. -/
def exampleWorld : World MemStore :=
  { db := { docs := [], nextID := 0 }, entropy := fun k => k % 251, drawn := 0, now := 1500000000 }

/-- A registration candidate that also fills the fields the server owns. -/
def noisyCandidate : Client :=
  { candidate ["https://app.example/cb"] "Foo" "sw1" with
    CouchID := "x", CouchRev := "9-x", ClientID := "y", ClientSecret := "z",
    SecretExpiresAt := 5, RegistrationToken := "t", GrantTypes := ["implicit"],
    ResponseTypes := ["token"] }

/-- The example world after `previousVersion` has been stored. -/
def storedWorld : World MemStore :=
  { exampleWorld with
    db := { docs := [{ previousVersion with ClientID := "" }], nextID := 1 } }

/-- The base64 text of 24 zero bytes. -/
def zeroSecret : String := "AAAAAAAAAAAAAAAAAAAAAAAAAAAAAAAA"

/-- A stored previous version whose secret is `zeroSecret`. -/
def previousZero : Client := { previousVersion with ClientSecret := zeroSecret }

/-- A world that stores `previousZero` and whose random source yields zero
bytes. -/
def zeroWorld : World MemStore :=
  { db := { docs := [{ previousZero with ClientID := "" }], nextID := 1 },
    entropy := fun _ => 0, drawn := 0, now := 1500000000 }

/-- The candidate named "App" of the examples. -/
def appCandidate : Client := candidate ["https://app.example/cb"] "App" "sw1"

/-- A candidate whose name ends in the largest Go `int`. -/
def maxSuffixCandidate : Client :=
  candidate ["https://app.example/cb"] "App-9223372036854775807" "sw1"

/-- The display names held by a store, in insertion order. -/
def storedNames (w : World MemStore) : List String := w.db.docs.map (fun r => r.ClientName)

/-- The error of a store answer, if it is one. -/
def storeError {α : Type} : Except CouchError α → Option CouchError
  | Except.error e => some e
  | Except.ok _ => none

/-- The previous version as a caller holds it after someone else has updated
the stored record: its revision is no longer the stored one. -/
def stalePrevious : Client := { previousVersion with CouchRev := "0-stale" }

/-- A previous version whose record is no longer in the store. -/
def missingPrevious : Client := { previousVersion with CouchID := "gone" }

/-- A second instance, with its own domain and OAuth secret. -/
def otherInstance : Instance := { Domain := "other.example", OAuthSecret := [4, 5, 6] }

/-- The worlds over the in-memory store whose records were all written by
`Create` and `Update`: a world with an empty store, and every world reached
from one of these by a call of `Create` or of `Update`, with whatever
arguments and whatever outcome. -/
inductive WrittenByRegistry (d : Deps MemStore) (i : Instance) : World MemStore → Prop where
  | empty (w : World MemStore) : w.db.docs = [] → WrittenByRegistry d i w
  | create (w : World MemStore) (c : Client) :
    WrittenByRegistry d i w → WrittenByRegistry d i (Create d i c w).2.2
  | update (w : World MemStore) (c old : Client) :
    WrittenByRegistry d i w → WrittenByRegistry d i (Update d i c old w).2.2

/-- The client registered by `noisyCandidate` on the example world, as
`FindClient` loads it. -/
def registeredFoo : Client :=
  { candidate ["https://app.example/cb"] "Foo" "sw1" with
    CouchID := "id0", CouchRev := "1-id0", ClientID := "id0",
    ClientSecret := "AAECAwQFBgcICQoLDA0ODxAREhMUFRYX",
    GrantTypes := ["authorization_code", "refresh_token"], ResponseTypes := ["code"] }

/-- The example collaborators with a codec that refuses to sign. -/
def signFailingDeps : Deps MemStore :=
  { exampleDeps with NewJWT := fun _ _ => Except.error "key is of invalid type" }

/-- The example collaborators with a store that refuses every creation and
keeps its records. -/
def createFailingDeps : Deps MemStore :=
  { exampleDeps with
    CreateDoc := fun s _ =>
      (Except.error { StatusCode := 500, Name := "error", Reason := "unavailable" }, s) }

/-- The example collaborators with a store whose lookups fail. -/
def lookupFailingDeps : Deps MemStore :=
  { exampleDeps with
    FindDocs := fun s _ =>
      (Except.error { StatusCode := 500, Name := "error", Reason := "unavailable" }, s) }

/-- The example collaborators with a store whose lookups answer that the
database does not exist. -/
def noDatabaseDeps : Deps MemStore :=
  { exampleDeps with
    FindDocs := fun s _ =>
      (Except.error { StatusCode := 404, Name := "not_found", Reason := "no_db_file" }, s) }

/-- A previous version whose notification platform is "firebase". -/
def previousFirebase : Client := { previousVersion with NotificationPlatform := "firebase" }

/-- The notification platforms of the records held by a store, in insertion
order. -/
def storedPlatforms (w : World MemStore) : List String :=
  w.db.docs.map (fun r => r.NotificationPlatform)

/-! ## Validation -/

theorem invalidRedirect_iff {σ : Type} (d : Deps σ) (i : Instance) (u : String) :
    invalidRedirect d i u = true ↔
      (d.urlParse u = none ∨
        ∃ p, d.urlParse u = some p ∧ (p.Host = i.Domain ∨ p.Fragment ≠ "")) := by
  unfold invalidRedirect
  cases h : d.urlParse u with
  | none => simp
  | some p => simp

theorem firstInvalidRedirect_eq_none {σ : Type} (d : Deps σ) (i : Instance) (l : List String) :
    firstInvalidRedirect d i l = none ↔ ∀ u ∈ l, invalidRedirect d i u = false := by
  induction l with
  | nil => simp [firstInvalidRedirect]
  | cons a l ih =>
    by_cases ha : invalidRedirect d i a = true
    · simp [firstInvalidRedirect, ha]
    · simp [firstInvalidRedirect, ha, ih]

theorem firstInvalidRedirect_of_mem {σ : Type} (d : Deps σ) (i : Instance) (l : List String)
    (h : ∃ u ∈ l, invalidRedirect d i u = true) :
    ∃ v, firstInvalidRedirect d i l = some v := by
  cases hf : firstInvalidRedirect d i l with
  | some v => exact ⟨v, rfl⟩
  | none =>
    obtain ⟨u, hu, hbad⟩ := h
    have := (firstInvalidRedirect_eq_none d i l).1 hf u hu
    simp [this] at hbad

theorem check_redirect_error {σ : Type} (d : Deps σ) (i : Instance) (c : Client)
    (h : ∃ u ∈ c.RedirectURIs, invalidRedirect d i u = true) :
    ∃ desc, checkMandatoryFields d i c =
      (some { Code := 400, Error := "invalid_redirect_uri", Description := desc }, c) := by
  obtain ⟨v, hv⟩ := firstInvalidRedirect_of_mem d i c.RedirectURIs h
  have hne : c.RedirectURIs.length ≠ 0 := by
    obtain ⟨u, hu, _⟩ := h
    intro h0
    rw [List.length_eq_zero] at h0
    simp [h0] at hu
  refine ⟨v ++ " is invalid", ?_⟩
  simp [checkMandatoryFields, hne, hv, StatusBadRequest]

theorem check_empty_redirects {σ : Type} (d : Deps σ) (i : Instance) (c : Client)
    (h : c.RedirectURIs = []) :
    checkMandatoryFields d i c =
      (some { Code := 400, Error := "invalid_redirect_uri",
              Description := "redirect_uris is mandatory" }, c) := by
  simp [checkMandatoryFields, h, StatusBadRequest]

theorem check_missing_metadata {σ : Type} (d : Deps σ) (i : Instance) (c : Client)
    (hne : c.RedirectURIs ≠ [])
    (hok : ∀ u ∈ c.RedirectURIs, invalidRedirect d i u = false)
    (hm : c.ClientName = "" ∨ c.SoftwareID = "") :
    checkMandatoryFields d i c =
      (some { Code := 400, Error := "invalid_client_metadata",
              Description := if c.ClientName = "" then "client_name is mandatory"
                             else "software_id is mandatory" }, c) := by
  have hlen : c.RedirectURIs.length ≠ 0 := by
    intro h0
    exact hne (List.length_eq_zero.1 h0)
  have hf := (firstInvalidRedirect_eq_none d i c.RedirectURIs).2 hok
  by_cases hn : c.ClientName = ""
  · simp [checkMandatoryFields, hlen, hf, hn, StatusBadRequest]
  · have hs : c.SoftwareID = "" := hm.resolve_left hn
    simp [checkMandatoryFields, hlen, hf, hn, hs, StatusBadRequest]

/-- C1. A candidate without redirect URIs is refused by `Create` with code 400
and error `invalid_redirect_uri`; a candidate whose redirect URIs (a non-empty
list) all pass the check but whose name or software id is empty is refused
with code 400 and error `invalid_client_metadata`. In both cases the candidate
and the world come back as they were, for every document store, including one
whose state changes when it is read: no store operation took place and nothing
was persisted. -/
theorem create_rejects_missing_mandatory {σ : Type} (d : Deps σ) (i : Instance) (c : Client)
    (w : World σ) :
    (c.RedirectURIs = [] →
      Create d i c w =
        (some { Code := 400, Error := "invalid_redirect_uri",
                Description := "redirect_uris is mandatory" }, c, w)) ∧
    (c.RedirectURIs ≠ [] → (∀ u ∈ c.RedirectURIs, invalidRedirect d i u = false) →
      (c.ClientName = "" ∨ c.SoftwareID = "") →
      Create d i c w =
        (some { Code := 400, Error := "invalid_client_metadata",
                Description := if c.ClientName = "" then "client_name is mandatory"
                               else "software_id is mandatory" }, c, w)) := by
  constructor
  · intro h
    simp [Create, check_empty_redirects d i c h]
  · intro hne hok hm
    simp [Create, check_missing_metadata d i c hne hok hm]

theorem create_rejects_missing_mandatory_witness :
    Create exampleDeps exampleInstance (candidate [] "Foo" "sw1") exampleWorld =
        (some { Code := 400, Error := "invalid_redirect_uri",
                Description := "redirect_uris is mandatory" },
         candidate [] "Foo" "sw1", exampleWorld) ∧
    Create exampleDeps exampleInstance (candidate ["https://app.example/cb"] "Foo" "")
        exampleWorld =
        (some { Code := 400, Error := "invalid_client_metadata",
                Description := "software_id is mandatory" },
         candidate ["https://app.example/cb"] "Foo" "", exampleWorld) :=
  ⟨(create_rejects_missing_mandatory exampleDeps exampleInstance (candidate [] "Foo" "sw1")
      exampleWorld).1 rfl,
   (create_rejects_missing_mandatory exampleDeps exampleInstance
      (candidate ["https://app.example/cb"] "Foo" "") exampleWorld).2
      (by decide) (by decide) (Or.inr rfl)⟩

/-- C2. When some redirect URI of the candidate, at whatever position, fails to
parse, or has the instance's domain as host, or has a fragment, `Create`
returns code 400 with error `invalid_redirect_uri`, and so does `Update` once
the client identifiers agree; the other fields play no part, and the candidate
and the world come back as they were. -/
theorem redirect_uri_rejected {σ : Type} (d : Deps σ) (i : Instance) (c old : Client)
    (w : World σ)
    (h : ∃ u ∈ c.RedirectURIs, d.urlParse u = none ∨
          ∃ p, d.urlParse u = some p ∧ (p.Host = i.Domain ∨ p.Fragment ≠ "")) :
    (∃ desc, Create d i c w =
      (some { Code := 400, Error := "invalid_redirect_uri", Description := desc }, c, w)) ∧
    (c.ClientID = old.ClientID →
      ∃ desc, Update d i c old w =
        (some { Code := 400, Error := "invalid_redirect_uri", Description := desc }, c, w)) := by
  have h' : ∃ u ∈ c.RedirectURIs, invalidRedirect d i u = true := by
    obtain ⟨u, hu, hbad⟩ := h
    exact ⟨u, hu, (invalidRedirect_iff d i u).2 hbad⟩
  obtain ⟨desc, hdesc⟩ := check_redirect_error d i c h'
  refine ⟨⟨desc, ?_⟩, fun hid => ⟨desc, ?_⟩⟩
  · simp [Create, hdesc]
  · simp [Update, prepareUpdate, hid, hdesc]

theorem redirect_uri_rejected_witness :
    (∃ desc, Create exampleDeps exampleInstance
        (candidate ["https://app.example/cb", "https://cozy.example/cb"] "Foo" "sw1")
        exampleWorld =
      (some { Code := 400, Error := "invalid_redirect_uri", Description := desc },
       candidate ["https://app.example/cb", "https://cozy.example/cb"] "Foo" "sw1",
       exampleWorld)) ∧
    (∃ desc, Update exampleDeps exampleInstance
        (candidate ["https://app.example/cb", "https://cozy.example/cb"] "Foo" "sw1")
        (candidate ["https://app.example/cb"] "Foo" "sw1") exampleWorld =
      (some { Code := 400, Error := "invalid_redirect_uri", Description := desc },
       candidate ["https://app.example/cb", "https://cozy.example/cb"] "Foo" "sw1",
       exampleWorld)) :=
  have h := redirect_uri_rejected exampleDeps exampleInstance
    (candidate ["https://app.example/cb", "https://cozy.example/cb"] "Foo" "sw1")
    (candidate ["https://app.example/cb"] "Foo" "sw1") exampleWorld
    ⟨"https://cozy.example/cb", by decide,
      Or.inr ⟨{ Host := "cozy.example", Fragment := "" }, by decide, Or.inl rfl⟩⟩
  ⟨h.1, h.2 rfl⟩

/-- C8. When the candidate's client identifier differs from the previous
version's, `Update` returns code 400 with error `invalid_client_id`, whatever
the other fields are, and the candidate and the world (the store with it) come
back as they were. -/
theorem update_rejects_client_id_mismatch {σ : Type} (d : Deps σ) (i : Instance)
    (c old : Client) (w : World σ) (h : c.ClientID ≠ old.ClientID) :
    Update d i c old w =
      (some { Code := 400, Error := "invalid_client_id",
              Description := "client_id is mandatory" }, c, w) := by
  simp [Update, prepareUpdate, h, StatusBadRequest]

theorem update_rejects_client_id_mismatch_witness :
    Update exampleDeps exampleInstance
        { candidate [] "" "" with ClientID := "other", ClientSecret := "guess" }
        { candidate ["https://app.example/cb"] "Foo" "sw1" with ClientID := "id0" }
        exampleWorld =
      (some { Code := 400, Error := "invalid_client_id",
              Description := "client_id is mandatory" },
       { candidate [] "" "" with ClientID := "other", ClientSecret := "guess" },
       exampleWorld) :=
  update_rejects_client_id_mismatch exampleDeps exampleInstance
    { candidate [] "" "" with ClientID := "other", ClientSecret := "guess" }
    { candidate ["https://app.example/cb"] "Foo" "sw1" with ClientID := "id0" }
    exampleWorld (by decide)

/-! ## Update -/

theorem check_accepts {σ : Type} (d : Deps σ) (i : Instance) (c : Client)
    (h : (checkMandatoryFields d i c).1 = none) :
    checkMandatoryFields d i c = (none, lowered d c) := by
  unfold checkMandatoryFields at h ⊢
  cases hf : firstInvalidRedirect d i c.RedirectURIs with
  | some v =>
    simp only [hf] at h
    split_ifs at h
  | none =>
    simp only [hf] at h ⊢
    split_ifs at h ⊢ <;> rfl

theorem writeUpdate_client {σ : Type} (d : Deps σ) (doc : Client) (w : World σ) :
    (writeUpdate d doc w).2.1.ClientSecret = doc.ClientSecret ∧
    (writeUpdate d doc w).2.1.ClientName = doc.ClientName ∧
    (writeUpdate d doc w).2.1.RegistrationToken = doc.RegistrationToken ∧
    ((writeUpdate d doc w).1 = none → (writeUpdate d doc w).2.1.ClientID = doc.CouchID) := by
  unfold writeUpdate
  rcases hu : d.UpdateDoc w.db doc with ⟨res, db⟩
  cases res with
  | error e => simp [internalServerError]
  | ok rev => simp [TransformIDAndRev]

theorem pinFields_secret (c old : Client) : (pinFields c old).ClientSecret = c.ClientSecret := by
  unfold pinFields
  simp only
  split_ifs <;> rfl

theorem generateRandomBytes_length {σ : Type} (w : World σ) (n : Nat) :
    (GenerateRandomBytes w n).1.length = n := by
  simp [GenerateRandomBytes]

/-- C6. Secret rotation in `Update`, for a candidate with the previous
version's client identifier that passes the field validation. With an empty
candidate secret the record handed to `couchdb.UpdateDoc` and the client left
behind carry the previous secret. With the previous (non-empty) secret they
carry the base64 text of `ClientSecretLen` = 24 bytes drawn from the random
source. With any other secret `Update` returns code 400 with error
`invalid_client_secret` and the world (the store with it) is as before. -/
theorem update_secret_rotation {σ : Type} (d : Deps σ) (i : Instance) (c old : Client)
    (w : World σ) (hid : c.ClientID = old.ClientID)
    (hvalid : (checkMandatoryFields d i c).1 = none) :
    (c.ClientSecret = "" →
      ∃ doc, prepareUpdate d i c old w = (none, doc, w) ∧
        Update d i c old w = writeUpdate d doc w ∧
        doc.ClientSecret = old.ClientSecret ∧
        (Update d i c old w).2.1.ClientSecret = old.ClientSecret) ∧
    (c.ClientSecret ≠ "" → c.ClientSecret = old.ClientSecret →
      ∃ doc bytes w1, GenerateRandomBytes w ClientSecretLen = (bytes, w1) ∧
        bytes.length = 24 ∧
        prepareUpdate d i c old w = (none, doc, w1) ∧
        Update d i c old w = writeUpdate d doc w1 ∧
        doc.ClientSecret = Base64Encode bytes ∧
        (Update d i c old w).2.1.ClientSecret = Base64Encode bytes) ∧
    (c.ClientSecret ≠ "" → c.ClientSecret ≠ old.ClientSecret →
      Update d i c old w =
        (some { Code := 400, Error := "invalid_client_secret",
                Description := "client_secret is invalid" }, lowered d c, w)) := by
  have hc := check_accepts d i c hvalid
  have hs : (lowered d c).ClientSecret = c.ClientSecret := rfl
  refine ⟨fun h1 => ?_, fun h1 h2 => ?_, fun h1 h2 => ?_⟩
  · have hp : prepareUpdate d i c old w =
        (none, pinFields { lowered d c with ClientSecret := old.ClientSecret } old, w) := by
      simp [prepareUpdate, hid, hc, hs, h1]
    refine ⟨_, hp, ?_, ?_, ?_⟩
    · simp [Update, hp]
    · rw [pinFields_secret]
    · simp only [Update, hp]
      rw [(writeUpdate_client d _ w).1, pinFields_secret]
  · have hp : prepareUpdate d i c old w =
        (none, pinFields { lowered d c with
            ClientSecret := Base64Encode (GenerateRandomBytes w ClientSecretLen).1 } old,
          (GenerateRandomBytes w ClientSecretLen).2) := by
      simp [prepareUpdate, hid, hc, hs, h1, h2]
      intro h3
      exact absurd (h2 ▸ h3) h1
    refine ⟨_, (GenerateRandomBytes w ClientSecretLen).1, (GenerateRandomBytes w ClientSecretLen).2,
      rfl, ?_, hp, ?_, ?_, ?_⟩
    · rw [generateRandomBytes_length]; rfl
    · simp [Update, hp]
    · rw [pinFields_secret]
    · simp only [Update, hp]
      rw [(writeUpdate_client d _ _).1, pinFields_secret]
  · simp [Update, prepareUpdate, hid, hc, hs, h1, h2, StatusBadRequest]

theorem update_secret_rotation_witness :
    (Update exampleDeps exampleInstance (updateCandidate "") previousVersion
        exampleWorld).2.1.ClientSecret = "s3cr3t" ∧
    (∃ bytes, bytes.length = 24 ∧
      (Update exampleDeps exampleInstance (updateCandidate "s3cr3t") previousVersion
        exampleWorld).2.1.ClientSecret = Base64Encode bytes) ∧
    Update exampleDeps exampleInstance (updateCandidate "guess") previousVersion exampleWorld =
      (some { Code := 400, Error := "invalid_client_secret",
              Description := "client_secret is invalid" },
       lowered exampleDeps (updateCandidate "guess"), exampleWorld) :=
  ⟨((update_secret_rotation exampleDeps exampleInstance (updateCandidate "") previousVersion
      exampleWorld rfl (by decide)).1 rfl).elim fun _ h => h.2.2.2,
   ((update_secret_rotation exampleDeps exampleInstance (updateCandidate "s3cr3t")
      previousVersion exampleWorld rfl (by decide)).2.1 (by decide) rfl).elim
      fun _ h => h.elim fun bytes h => h.elim fun _ h => ⟨bytes, h.2.1, h.2.2.2.2.2⟩,
   (update_secret_rotation exampleDeps exampleInstance (updateCandidate "guess")
      previousVersion exampleWorld rfl (by decide)).2.2 (by decide) (by decide)⟩

theorem pinFields_fields (c old : Client) :
    (pinFields c old).CouchID = old.CouchID ∧ (pinFields c old).CouchRev = old.CouchRev ∧
    (pinFields c old).ClientName = old.ClientName ∧ (pinFields c old).ClientID = "" ∧
    (pinFields c old).SecretExpiresAt = 0 ∧
    (pinFields c old).GrantTypes = ["authorization_code", "refresh_token"] ∧
    (pinFields c old).ResponseTypes = ["code"] ∧ (pinFields c old).RegistrationToken = "" := by
  unfold pinFields
  simp only
  split_ifs <;> simp

theorem prepareUpdate_record {σ : Type} (d : Deps σ) (i : Instance) (c old doc : Client)
    (w w1 : World σ) (h : prepareUpdate d i c old w = (none, doc, w1)) :
    ∃ c1, doc = pinFields c1 old := by
  unfold prepareUpdate at h
  by_cases h1 : c.ClientID = old.ClientID
  swap
  · simp [h1] at h
  simp only [h1, ne_eq, not_true_eq_false, if_false] at h
  rcases hc : checkMandatoryFields d i c with ⟨e, c2⟩
  rw [hc] at h
  cases e with
  | some err => simp at h
  | none =>
    simp only at h
    split_ifs at h
    · exact ⟨_, (Prod.mk.inj (Prod.mk.inj h).2).1.symm⟩
    · exact ⟨_, (Prod.mk.inj (Prod.mk.inj h).2).1.symm⟩
    · simp at h

/-- C9. Whenever `Update` reaches `couchdb.UpdateDoc`, the record it hands to
the store has the identifier, revision and name of the previous version,
secret expiry 0, the two fixed grant types, the fixed response type and an
empty registration token, whatever the candidate supplied; and when `Update`
succeeds, the client it leaves behind has the previous name, the previous
storage identifier as `ClientID`, and an empty registration token. -/
theorem update_pins_and_forces {σ : Type} (d : Deps σ) (i : Instance) (c old doc : Client)
    (w w1 : World σ) (h : prepareUpdate d i c old w = (none, doc, w1)) :
    Update d i c old w = writeUpdate d doc w1 ∧
    doc.CouchID = old.CouchID ∧ doc.CouchRev = old.CouchRev ∧
    doc.ClientName = old.ClientName ∧ doc.SecretExpiresAt = 0 ∧
    doc.GrantTypes = ["authorization_code", "refresh_token"] ∧
    doc.ResponseTypes = ["code"] ∧ doc.RegistrationToken = "" ∧
    ((Update d i c old w).1 = none →
      (Update d i c old w).2.1.ClientName = old.ClientName ∧
      (Update d i c old w).2.1.ClientID = old.CouchID ∧
      (Update d i c old w).2.1.RegistrationToken = "") := by
  obtain ⟨c1, rfl⟩ := prepareUpdate_record d i c old doc w w1 h
  have hu : Update d i c old w = writeUpdate d (pinFields c1 old) w1 := by
    simp [Update, h]
  have hf := pinFields_fields c1 old
  have hw := writeUpdate_client d (pinFields c1 old) w1
  refine ⟨hu, hf.1, hf.2.1, hf.2.2.1, hf.2.2.2.2.1, hf.2.2.2.2.2.1, hf.2.2.2.2.2.2.1,
    hf.2.2.2.2.2.2.2, ?_⟩
  rw [hu]
  intro hok
  exact ⟨hw.2.1.trans hf.2.2.1, (hw.2.2.2 hok).trans hf.1, hw.2.2.1.trans hf.2.2.2.2.2.2.2⟩

theorem update_pins_and_forces_witness :
    (Update exampleDeps exampleInstance (updateCandidate "") previousVersion storedWorld).1
        = none ∧
    (Update exampleDeps exampleInstance (updateCandidate "") previousVersion
        storedWorld).2.1.ClientName = "Foo" ∧
    (Update exampleDeps exampleInstance (updateCandidate "") previousVersion
        storedWorld).2.1.ClientID = "id0" ∧
    (Update exampleDeps exampleInstance (updateCandidate "") previousVersion
        storedWorld).2.1.RegistrationToken = "" :=
  ⟨by decide,
   (update_pins_and_forces exampleDeps exampleInstance (updateCandidate "") previousVersion
      (pinFields { lowered exampleDeps (updateCandidate "") with ClientSecret := "s3cr3t" }
        previousVersion)
      storedWorld storedWorld rfl).2.2.2.2.2.2.2.2 (by decide)⟩

/-! ## Create -/

theorem b64Chars_ne_nil (bytes : List Nat) (h : bytes ≠ []) : b64Chars bytes ≠ [] := by
  match bytes, h with
  | [_], _ => simp [b64Chars]
  | [_, _], _ => simp [b64Chars]
  | _ :: _ :: _ :: _, _ => simp [b64Chars]

theorem base64Encode_ne_empty (bytes : List Nat) (h : bytes ≠ []) : Base64Encode bytes ≠ "" := by
  intro he
  have hd : (Base64Encode bytes).data = [] := by rw [he]
  exact b64Chars_ne_nil bytes h hd

theorem createWith_success {σ : Type} (d : Deps σ) (i : Instance) (c c1 : Client)
    (results : List Client) (w w1 : World σ) (h : createWith d i c results w = (none, c1, w1)) :
    ∃ id rev db token,
      d.CreateDoc w.db (createRecord c results (GenerateRandomBytes w ClientSecretLen).1)
        = (Except.ok (id, rev), db) ∧
      d.NewJWT i.OAuthSecret (registrationClaims i w.now id) = Except.ok token ∧
      c1 = TransformIDAndRev
        { createRecord c results (GenerateRandomBytes w ClientSecretLen).1 with
          CouchID := id, CouchRev := rev, RegistrationToken := token } := by
  unfold createWith at h
  simp only at h
  have hdb : (GenerateRandomBytes w ClientSecretLen).2.db = w.db := rfl
  have hnow : (GenerateRandomBytes w ClientSecretLen).2.now = w.now := rfl
  rw [hdb] at h
  rcases hcd : d.CreateDoc w.db (createRecord c results (GenerateRandomBytes w ClientSecretLen).1)
    with ⟨res, db⟩
  rw [hcd] at h
  cases res with
  | error e => simp at h
  | ok p =>
    obtain ⟨id, rev⟩ := p
    simp only [hnow] at h
    cases hj : d.NewJWT i.OAuthSecret (registrationClaims i w.now id) with
    | error e => rw [hj] at h; simp at h
    | ok token =>
      rw [hj] at h
      exact ⟨id, rev, db, token, rfl, hj, (Prod.mk.inj (Prod.mk.inj h).2).1.symm⟩

/-- C10. After a successful `Create`, whatever the caller put in the
server-side fields, the client left behind has the identifier the store
assigned as `ClientID`, empty `CouchID` and `CouchRev`, the base64 text of
`ClientSecretLen` = 24 bytes drawn from the random source as secret (so a
non-empty one), secret expiry 0, the token just minted over the registration
claims as `RegistrationToken`, the two fixed grant types and the fixed
response type; the redirect URIs and the software id are the caller's. -/
theorem create_success_fields {σ : Type} (d : Deps σ) (i : Instance) (c c1 : Client)
    (w w1 : World σ) (h : Create d i c w = (none, c1, w1)) :
    ∃ results db0 id rev db token bytes,
      db0 = (d.FindDocs w.db
        { UseIndex := "by-client-name", Selector := Filter.StartWith "client_name" c.ClientName,
          Limit := 0 }).2 ∧
      bytes = (GenerateRandomBytes w ClientSecretLen).1 ∧ bytes.length = 24 ∧
      d.CreateDoc db0 (createRecord (lowered d c) results bytes) = (Except.ok (id, rev), db) ∧
      d.NewJWT i.OAuthSecret (registrationClaims i w.now id) = Except.ok token ∧
      c1.ClientID = id ∧ c1.CouchID = "" ∧ c1.CouchRev = "" ∧
      c1.ClientSecret = Base64Encode bytes ∧ c1.ClientSecret ≠ "" ∧
      c1.SecretExpiresAt = 0 ∧ c1.RegistrationToken = token ∧
      c1.GrantTypes = ["authorization_code", "refresh_token"] ∧
      c1.ResponseTypes = ["code"] ∧
      c1.RedirectURIs = c.RedirectURIs ∧ c1.SoftwareID = c.SoftwareID := by
  have hlen : (GenerateRandomBytes w ClientSecretLen).1.length = 24 := by
    rw [generateRandomBytes_length]; rfl
  have hne : Base64Encode (GenerateRandomBytes w ClientSecretLen).1 ≠ "" := by
    apply base64Encode_ne_empty
    intro h0
    rw [h0] at hlen
    simp at hlen
  have key : ∀ (results : List Client) (db0 : σ),
      db0 = (d.FindDocs w.db
        { UseIndex := "by-client-name", Selector := Filter.StartWith "client_name" c.ClientName,
          Limit := 0 }).2 →
      createWith d i (lowered d c) results { w with db := db0 } = (none, c1, w1) →
      ∃ results db0 id rev db token bytes,
        db0 = (d.FindDocs w.db
        { UseIndex := "by-client-name", Selector := Filter.StartWith "client_name" c.ClientName,
          Limit := 0 }).2 ∧
        bytes = (GenerateRandomBytes w ClientSecretLen).1 ∧ bytes.length = 24 ∧
        d.CreateDoc db0 (createRecord (lowered d c) results bytes) = (Except.ok (id, rev), db) ∧
        d.NewJWT i.OAuthSecret (registrationClaims i w.now id) = Except.ok token ∧
        c1.ClientID = id ∧ c1.CouchID = "" ∧ c1.CouchRev = "" ∧
        c1.ClientSecret = Base64Encode bytes ∧ c1.ClientSecret ≠ "" ∧
        c1.SecretExpiresAt = 0 ∧ c1.RegistrationToken = token ∧
        c1.GrantTypes = ["authorization_code", "refresh_token"] ∧
        c1.ResponseTypes = ["code"] ∧
        c1.RedirectURIs = c.RedirectURIs ∧ c1.SoftwareID = c.SoftwareID := by
    intro results db0 hdb0 hcw
    obtain ⟨id, rev, db, token, hcd, hj, rfl⟩ := createWith_success d i _ c1 results _ w1 hcw
    exact ⟨results, db0, id, rev, db, token, _, hdb0, rfl, hlen, hcd, hj, rfl, rfl, rfl, rfl, hne,
      rfl, rfl, rfl, rfl, rfl, rfl⟩
  unfold Create at h
  rcases hc : checkMandatoryFields d i c with ⟨e, c2⟩
  rw [hc] at h
  cases e with
  | some err => simp at h
  | none =>
    have hc2 := check_accepts d i c (by rw [hc])
    rw [hc] at hc2
    obtain rfl : c2 = lowered d c := (Prod.mk.inj hc2).2
    simp only at h
    rcases hf : d.FindDocs w.db
      { UseIndex := "by-client-name",
        Selector := Filter.StartWith "client_name" (lowered d c).ClientName, Limit := 0 }
      with ⟨res, db0⟩
    rw [hf] at h
    have hdb0 : db0 = (d.FindDocs w.db
        { UseIndex := "by-client-name", Selector := Filter.StartWith "client_name" c.ClientName,
          Limit := 0 }).2 := by
      show db0 = (d.FindDocs w.db
        { UseIndex := "by-client-name",
          Selector := Filter.StartWith "client_name" (lowered d c).ClientName, Limit := 0 }).2
      rw [hf]
    cases res with
    | error e =>
      simp only at h
      split_ifs at h
      · simp at h
      · exact key [] db0 hdb0 h
    | ok results => exact key results db0 hdb0 h

theorem create_success_fields_witness :
    (Create exampleDeps exampleInstance noisyCandidate exampleWorld).1 = none ∧
    (Create exampleDeps exampleInstance noisyCandidate exampleWorld).2.1.ClientID = "id0" ∧
    (Create exampleDeps exampleInstance noisyCandidate exampleWorld).2.1.ClientSecret ≠ "" ∧
    (Create exampleDeps exampleInstance noisyCandidate exampleWorld).2.1.GrantTypes =
      ["authorization_code", "refresh_token"] :=
  have h := create_success_fields exampleDeps exampleInstance noisyCandidate
    (Create exampleDeps exampleInstance noisyCandidate exampleWorld).2.1 exampleWorld
    (Create exampleDeps exampleInstance noisyCandidate exampleWorld).2.2
    (Prod.ext (by decide) rfl)
  ⟨by decide, by decide,
   h.elim fun _ h => h.elim fun _ h => h.elim fun _ h => h.elim fun _ h => h.elim fun _ h =>
     h.elim fun _ h => h.elim fun _ h => h.2.2.2.2.2.2.2.2.2.1,
   h.elim fun _ h => h.elim fun _ h => h.elim fun _ h => h.elim fun _ h => h.elim fun _ h =>
     h.elim fun _ h => h.elim fun _ h => h.2.2.2.2.2.2.2.2.2.2.2.2.1⟩

/-- C7, counterexample. `Update` draws the new secret without comparing it
with the previous one: in a world whose random source yields 24 zero bytes, a
candidate that presents the previous secret `zeroSecret` is updated
successfully and keeps exactly that secret. -/
theorem update_rotation_repeats_secret :
    (updateCandidate zeroSecret).ClientSecret = previousZero.ClientSecret ∧
    previousZero.ClientSecret ≠ "" ∧
    (Update exampleDeps exampleInstance (updateCandidate zeroSecret) previousZero zeroWorld).1
      = none ∧
    (Update exampleDeps exampleInstance (updateCandidate zeroSecret) previousZero
      zeroWorld).2.1.ClientSecret = previousZero.ClientSecret := by
  decide

/-- C7, amended. In a successful `Update` whose candidate presents exactly the
previous non-empty secret, the secret of the updated client is the base64 text
of the 24 bytes just drawn from the random source; it differs from the
previous secret exactly when that text does. -/
theorem update_rotation_fresh_secret {σ : Type} (d : Deps σ) (i : Instance) (c old : Client)
    (w : World σ) (hok : (Update d i c old w).1 = none)
    (hsame : c.ClientSecret = old.ClientSecret) (hne : old.ClientSecret ≠ "") :
    (Update d i c old w).2.1.ClientSecret =
      Base64Encode (GenerateRandomBytes w ClientSecretLen).1 ∧
    (GenerateRandomBytes w ClientSecretLen).1.length = 24 ∧
    ((Update d i c old w).2.1.ClientSecret ≠ old.ClientSecret ↔
      Base64Encode (GenerateRandomBytes w ClientSecretLen).1 ≠ old.ClientSecret) := by
  have hid : c.ClientID = old.ClientID := by
    by_contra hid
    simp [Update, prepareUpdate, hid] at hok
  have hvalid : (checkMandatoryFields d i c).1 = none := by
    cases hc : checkMandatoryFields d i c with
    | mk e c2 =>
      cases e with
      | none => rfl
      | some err =>
        simp [Update, prepareUpdate, hid, hc] at hok
  have hs : (lowered d c).ClientSecret = c.ClientSecret := rfl
  have hc := check_accepts d i c hvalid
  have hp : prepareUpdate d i c old w =
      (none, pinFields { lowered d c with
          ClientSecret := Base64Encode (GenerateRandomBytes w ClientSecretLen).1 } old,
        (GenerateRandomBytes w ClientSecretLen).2) := by
    simp [prepareUpdate, hid, hc, hs, hsame, hne]
  have hsec : (Update d i c old w).2.1.ClientSecret =
      Base64Encode (GenerateRandomBytes w ClientSecretLen).1 := by
    simp only [Update, hp]
    rw [(writeUpdate_client d _ _).1, pinFields_secret]
  refine ⟨hsec, ?_, ?_⟩
  · rw [generateRandomBytes_length]; rfl
  · rw [hsec]

theorem update_rotation_fresh_secret_witness :
    (Update exampleDeps exampleInstance (updateCandidate "s3cr3t") previousVersion
        storedWorld).2.1.ClientSecret = "AAECAwQFBgcICQoLDA0ODxAREhMUFRYX" ∧
    (Update exampleDeps exampleInstance (updateCandidate "s3cr3t") previousVersion
        storedWorld).2.1.ClientSecret ≠ previousVersion.ClientSecret :=
  have h := update_rotation_fresh_secret exampleDeps exampleInstance (updateCandidate "s3cr3t")
    previousVersion storedWorld (by decide) rfl (by decide)
  ⟨h.1.trans (by decide), h.2.2.2 (by decide)⟩

/-! ## Strings -/

theorem hasPrefixChars_append (p t : List Char) : hasPrefixChars (p ++ t) p = true := by
  induction p with
  | nil => cases t <;> rfl
  | cons a p ih => simp [hasPrefixChars, ih]

theorem hasPrefixChars_drop (s p : List Char) (h : hasPrefixChars s p = true) :
    s = p ++ s.drop p.length := by
  induction p generalizing s with
  | nil => simp
  | cons b p ih =>
    cases s with
    | nil => simp [hasPrefixChars] at h
    | cons a s =>
      simp only [hasPrefixChars, Bool.and_eq_true, decide_eq_true_eq] at h
      obtain ⟨rfl, h2⟩ := h
      simp only [List.cons_append, List.length_cons, List.drop_succ_cons]
      rw [← ih s h2]

theorem hasPrefix_append (p t : String) : HasPrefix (p ++ t) p = true := by
  simp [HasPrefix, hasPrefixChars_append]

theorem hasPrefix_self (p : String) : HasPrefix p p = true := by
  have h := hasPrefixChars_append p.data []
  simpa [HasPrefix] using h

theorem sliceFrom_append (p t : String) : sliceFrom (p ++ t) (strLen p) = t := by
  simp [sliceFrom, strLen]

theorem hasPrefix_slice (s p : String) (h : HasPrefix s p = true) :
    s = p ++ sliceFrom s (strLen p) := by
  apply String.ext
  simp only [String.data_append, sliceFrom, strLen]
  exact hasPrefixChars_drop s.data p.data h

theorem append_left_cancel (p s t : String) (h : p ++ s = p ++ t) : s = t := by
  apply String.ext
  have h2 := congrArg String.data h
  simpa using h2

theorem append_ne_self (p s : String) (h : s ≠ "") : p ++ s ≠ p := by
  intro he
  have h2 := congrArg String.data he
  simp only [String.data_append] at h2
  have h3 : s.data = [] := by simpa using h2
  exact h (String.ext h3)

/-! ## `strconv` -/

theorem digitVal_digitChar (v : Nat) (h : v < 10) : digitVal (digitChar v) = some v := by
  interval_cases v <;> rfl

theorem parseDigits_append (xs ys : List Char) (acc : Nat) :
    parseDigits (xs ++ ys) acc = (parseDigits xs acc).bind (parseDigits ys) := by
  induction xs generalizing acc with
  | nil => simp [parseDigits]
  | cons ch xs ih =>
    simp only [List.cons_append, parseDigits]
    cases digitVal ch with
    | none => simp
    | some v => simp [ih]

theorem parseDigits_natDigits (fuel n : Nat) (h : n < fuel) :
    parseDigits (natDigits fuel n) 0 = some n := by
  induction fuel generalizing n with
  | zero => omega
  | succ fuel ih =>
    unfold natDigits
    split_ifs with h10
    · simp [parseDigits, digitVal_digitChar n h10]
    · rw [parseDigits_append, ih (n / 10) (by omega)]
      simp only [Option.some_bind, parseDigits,
        digitVal_digitChar (n % 10) (Nat.mod_lt n (by norm_num))]
      congr 1
      omega

theorem natDigits_ne_nil (fuel n : Nat) : natDigits (fuel + 1) n ≠ [] := by
  unfold natDigits
  split_ifs <;> simp

theorem decimal_ne_empty (n : Nat) : decimal n ≠ "" := by
  intro h
  have h2 := congrArg String.data h
  exact natDigits_ne_nil n n h2

theorem parseDigits_head (ch : Char) (rest : List Char) (acc v : Nat)
    (h : parseDigits (ch :: rest) acc = some v) : ch ≠ '-' ∧ ch ≠ '+' := by
  constructor
  · rintro rfl
    simp [parseDigits, digitVal] at h
  · rintro rfl
    simp [parseDigits, digitVal] at h

theorem atoi_decimal (n : Nat) (h : n < 2 ^ 63) : Atoi (decimal n) = some (n : Int) := by
  have hp := parseDigits_natDigits (n + 1) n (Nat.lt_succ_self n)
  unfold Atoi decimal
  simp only
  cases hd : natDigits (n + 1) n with
  | nil => exact absurd hd (natDigits_ne_nil n n)
  | cons ch rest =>
    rw [hd] at hp
    obtain ⟨h1, h2⟩ := parseDigits_head ch rest 0 n hp
    simp only [h1, h2, if_false, hp]
    rw [if_pos h]

theorem atoi_itoa (x : Int) (hlo : minInt ≤ x) (hhi : x ≤ maxInt) : Atoi (Itoa x) = some x := by
  unfold minInt at hlo
  unfold maxInt at hhi
  unfold Itoa
  split_ifs with hneg
  · have hp := parseDigits_natDigits (x.natAbs + 1) x.natAbs (Nat.lt_succ_self _)
    have hdata : ("-" ++ decimal x.natAbs).data = '-' :: natDigits (x.natAbs + 1) x.natAbs := by
      simp [decimal]
    have hle : x.natAbs ≤ 2 ^ 63 := by omega
    unfold Atoi
    rw [hdata]
    simp only [if_true, natDigits_ne_nil, if_false, hp, hle]
    congr 1
    omega
  · have hlt : x.natAbs < 2 ^ 63 := by omega
    rw [atoi_decimal x.natAbs hlt]
    congr 1
    omega

theorem itoa_ne_empty (x : Int) : Itoa x ≠ "" := by
  unfold Itoa
  split_ifs
  · intro h
    have h2 := congrArg String.data h
    simp at h2
  · exact decimal_ne_empty _

theorem itoa_of_nonneg (x : Int) (h : 0 ≤ x) : Itoa x = decimal x.natAbs := by
  unfold Itoa
  rw [if_neg (by omega)]

theorem wrapInt_of_range (x : Int) (hlo : minInt ≤ x) (hhi : x ≤ maxInt) : wrapInt x = x := by
  unfold minInt at hlo
  unfold maxInt at hhi
  unfold wrapInt
  omega

/-! ## The loop over the results of the lookup -/

theorem suffixed_ne (N s : String) : N ++ "-" ++ s ≠ N := by
  rw [String.append_assoc]
  apply append_ne_self
  intro h
  have h2 := congrArg String.data h
  simp at h2

theorem scanStep_spec (N : String) (st : ScanState) (r : Client) :
    (scanStep N (N ++ "-") st r).found = (st.found || decide (r.ClientName = N)) ∧
    st.n ≤ (scanStep N (N ++ "-") st r).n ∧
    ((scanStep N (N ++ "-") st r).n = st.n ∨
      ∃ s, r.ClientName = N ++ "-" ++ s ∧ Atoi s = some (scanStep N (N ++ "-") st r).n) ∧
    (∀ s m, r.ClientName = N ++ "-" ++ s → Atoi s = some m →
      m ≤ (scanStep N (N ++ "-") st r).n) := by
  by_cases hN : r.ClientName = N
  · have hstep : scanStep N (N ++ "-") st r = { st with found := true } := by
      simp [scanStep, hN]
    rw [hstep]
    refine ⟨by simp [hN], le_refl _, Or.inl rfl, ?_⟩
    intro s m hs
    exact absurd (hN.symm.trans hs).symm (suffixed_ne N s)
  · by_cases hp : HasPrefix r.ClientName (N ++ "-") = true
    · have hsl := hasPrefix_slice r.ClientName (N ++ "-") hp
      have hcancel : ∀ s, r.ClientName = N ++ "-" ++ s →
          s = sliceFrom r.ClientName (strLen (N ++ "-")) := by
        intro s hs
        rw [hs, sliceFrom_append]
      cases ha : Atoi (sliceFrom r.ClientName (strLen (N ++ "-"))) with
      | none =>
        have hstep : scanStep N (N ++ "-") st r = st := by
          simp [scanStep, hN, hp, ha]
        rw [hstep]
        refine ⟨by simp [hN], le_refl _, Or.inl rfl, ?_⟩
        intro s m hs hm
        rw [hcancel s hs, ha] at hm
        cases hm
      | some m0 =>
        by_cases hgt : m0 > st.n
        · have hstep : scanStep N (N ++ "-") st r = { st with n := m0 } := by
            simp [scanStep, hN, hp, ha, hgt]
          rw [hstep]
          refine ⟨by simp [hN], le_of_lt hgt, Or.inr ⟨_, hsl, ha⟩, ?_⟩
          intro s m hs hm
          rw [hcancel s hs, ha] at hm
          cases hm
          exact le_refl _
        · have hstep : scanStep N (N ++ "-") st r = st := by
            simp [scanStep, hN, hp, ha, hgt]
          rw [hstep]
          refine ⟨by simp [hN], le_refl _, Or.inl rfl, ?_⟩
          intro s m hs hm
          rw [hcancel s hs, ha] at hm
          cases hm
          exact not_lt.1 hgt
    · have hp2 : HasPrefix r.ClientName (N ++ "-") = false := by
        simpa using hp
      have hstep : scanStep N (N ++ "-") st r = st := by
        simp [scanStep, hN, hp2]
      rw [hstep]
      refine ⟨by simp [hN], le_refl _, Or.inl rfl, ?_⟩
      intro s m hs
      rw [hs, hasPrefix_append] at hp2
      cases hp2

theorem scanFold_spec (N : String) (L : List Client) (st : ScanState) :
    ((L.foldl (scanStep N (N ++ "-")) st).found = true ↔
      (st.found = true ∨ ∃ r ∈ L, r.ClientName = N)) ∧
    st.n ≤ (L.foldl (scanStep N (N ++ "-")) st).n ∧
    ((L.foldl (scanStep N (N ++ "-")) st).n = st.n ∨
      ∃ r ∈ L, ∃ s, r.ClientName = N ++ "-" ++ s ∧
        Atoi s = some (L.foldl (scanStep N (N ++ "-")) st).n) ∧
    (∀ r ∈ L, ∀ s m, r.ClientName = N ++ "-" ++ s → Atoi s = some m →
      m ≤ (L.foldl (scanStep N (N ++ "-")) st).n) := by
  induction L generalizing st with
  | nil => simp
  | cons a L ih =>
    obtain ⟨h1, h2, h3, h4⟩ := scanStep_spec N st a
    obtain ⟨i1, i2, i3, i4⟩ := ih (scanStep N (N ++ "-") st a)
    simp only [List.foldl_cons]
    refine ⟨?_, le_trans h2 i2, ?_, ?_⟩
    · rw [i1, h1]
      simp only [Bool.or_eq_true, decide_eq_true_eq, List.mem_cons, exists_eq_or_imp]
      tauto
    · rcases i3 with i3 | ⟨r, hr, s, hs, ha⟩
      · rw [i3]
        rcases h3 with h3 | ⟨s, hs, ha⟩
        · exact Or.inl h3
        · exact Or.inr ⟨a, List.mem_cons_self _ _, s, hs, ha⟩
      · exact Or.inr ⟨r, List.mem_cons_of_mem _ hr, s, hs, ha⟩
    · intro r hr s m hs hm
      rcases List.mem_cons.1 hr with rfl | hr
      · exact le_trans (h4 s m hs hm) i2
      · exact i4 r hr s m hs hm

/-- The loop of `Create` computes: `found` says whether some result bears
exactly the candidate's name, and `n` is the largest of 1 and the integers
read by `Atoi` behind `name + "-"` in the results. -/
theorem scanResults_spec (N : String) (L : List Client) :
    ((scanResults N L).found = true ↔ ∃ r ∈ L, r.ClientName = N) ∧
    1 ≤ (scanResults N L).n ∧
    ((scanResults N L).n = 1 ∨
      ∃ r ∈ L, ∃ s, r.ClientName = N ++ "-" ++ s ∧ Atoi s = some (scanResults N L).n) ∧
    (∀ r ∈ L, ∀ s m, r.ClientName = N ++ "-" ++ s → Atoi s = some m →
      m ≤ (scanResults N L).n) := by
  have h := scanFold_spec N L { n := 1, found := false }
  simpa [scanResults] using h

/-! ## The name given by `Create` -/

theorem dedupName_of_absent (N : String) (L : List Client)
    (h : ¬ ∃ r ∈ L, r.ClientName = N) : dedupName N L = N := by
  have hf : (scanResults N L).found = false := by
    cases hfd : (scanResults N L).found with
    | false => rfl
    | true => exact absurd ((scanResults_spec N L).1.1 hfd) h
  unfold dedupName nameSuffix
  simp only [hf]
  split_ifs <;> first | rfl | contradiction

theorem dedupName_of_present (N : String) (L : List Client)
    (h : ∃ r ∈ L, r.ClientName = N) :
    dedupName N L = N ++ "-" ++ Itoa (wrapInt ((scanResults N L).n + 1)) := by
  have hf : (scanResults N L).found = true := (scanResults_spec N L).1.2 h
  have hlen : L.length > 0 := by
    obtain ⟨r, hr, _⟩ := h
    exact List.length_pos_of_mem hr
  unfold dedupName nameSuffix
  simp only [hlen, hf, if_true]
  rw [if_pos (itoa_ne_empty _)]

/-- Without overflow of `n + 1`, the name `Create` picks is borne by no
result of the lookup. -/
theorem dedupName_fresh (N : String) (L : List Client)
    (hmax : (scanResults N L).n < maxInt) :
    ∀ r ∈ L, r.ClientName ≠ dedupName N L := by
  intro r hr heq
  by_cases h : ∃ r ∈ L, r.ClientName = N
  · obtain ⟨_, h1, _, h4⟩ := scanResults_spec N L
    rw [dedupName_of_present N L h] at heq
    have hlo : minInt ≤ (scanResults N L).n + 1 := by
      unfold minInt
      omega
    have hhi : (scanResults N L).n + 1 ≤ maxInt := by omega
    rw [wrapInt_of_range _ hlo hhi] at heq
    have := h4 r hr _ _ heq (atoi_itoa _ hlo hhi)
    omega
  · rw [dedupName_of_absent N L h] at heq
    exact h ⟨r, hr, heq⟩

theorem createWith_name {σ : Type} (d : Deps σ) (i : Instance) (c : Client)
    (L : List Client) (w : World σ) :
    (createWith d i c L w).2.1.ClientName = dedupName c.ClientName L := by
  unfold createWith
  simp only
  split
  · rfl
  · split <;> rfl

theorem create_name {σ : Type} (d : Deps σ) (i : Instance) (c : Client) (w : World σ)
    (L : List Client) (db0 : σ)
    (hvalid : (checkMandatoryFields d i c).1 = none)
    (hfind : d.FindDocs w.db
      { UseIndex := "by-client-name", Selector := Filter.StartWith "client_name" c.ClientName,
        Limit := 0 } = (Except.ok L, db0)) :
    (Create d i c w).2.1.ClientName = dedupName c.ClientName L ∧
    Create d i c w = createWith d i (lowered d c) L { w with db := db0 } := by
  have hc := check_accepts d i c hvalid
  have hfind2 : d.FindDocs w.db
      { UseIndex := "by-client-name",
        Selector := Filter.StartWith "client_name" (lowered d c).ClientName,
        Limit := 0 } = (Except.ok L, db0) := hfind
  have hC : Create d i c w = createWith d i (lowered d c) L { w with db := db0 } := by
    unfold Create
    rw [hc]
    simp only [hfind2]
  refine ⟨?_, hC⟩
  rw [hC, createWith_name]
  rfl

/-! ## Successive registrations on the in-memory store -/

theorem memFind_startWith (s : MemStore) (N : String) :
    MemStore.find s
      { UseIndex := "by-client-name", Selector := Filter.StartWith "client_name" N, Limit := 0 }
      = (Except.ok (s.docs.filter (fun r => HasPrefix r.ClientName N)), s) := by
  have hfun : matchesFilter (Filter.StartWith "client_name" N)
      = fun r => HasPrefix r.ClientName N := by
    funext r
    simp [matchesFilter, jsonField]
  simp [MemStore.find, hfun]

theorem createWith_mem {d : Deps MemStore} (hC : d.CreateDoc = MemStore.create) (i : Instance)
    (c : Client) (L : List Client) (w : World MemStore) :
    ∃ record, record.ClientName = dedupName c.ClientName L ∧
      (createWith d i c L w).2.2.db.docs = w.db.docs ++ [record] := by
  unfold createWith
  simp only [hC, MemStore.create]
  split <;> exact ⟨_, rfl, rfl⟩

/-- One registration on the in-memory store: the name given is `dedupName`
over the stored records whose name starts with the candidate's name, and one
record with that name is added to the store. -/
theorem create_mem_step {d : Deps MemStore} (hF : d.FindDocs = MemStore.find)
    (hC : d.CreateDoc = MemStore.create) (i : Instance) (c : Client) (w : World MemStore)
    (hvalid : (checkMandatoryFields d i c).1 = none) :
    (Create d i c w).2.1.ClientName =
      dedupName c.ClientName (w.db.docs.filter (fun r => HasPrefix r.ClientName c.ClientName)) ∧
    ∃ record, record.ClientName =
        dedupName c.ClientName
          (w.db.docs.filter (fun r => HasPrefix r.ClientName c.ClientName)) ∧
      (Create d i c w).2.2.db.docs = w.db.docs ++ [record] := by
  have hfind : d.FindDocs w.db
      { UseIndex := "by-client-name", Selector := Filter.StartWith "client_name" c.ClientName,
        Limit := 0 } =
      (Except.ok (w.db.docs.filter (fun r => HasPrefix r.ClientName c.ClientName)), w.db) := by
    rw [hF, memFind_startWith]
  obtain ⟨hname, hcw⟩ := create_name d i c w _ w.db hvalid hfind
  refine ⟨hname, ?_⟩
  rw [hcw]
  exact createWith_mem hC i (lowered d c) _ { w with db := w.db }

theorem hasPrefix_suffixed (N s : String) : HasPrefix (N ++ "-" ++ s) N = true := by
  rw [String.append_assoc]
  exact hasPrefix_append N _

theorem registered_scan (N : String) (j : Nat) (docs : List Client)
    (hreg : Registered N j docs) (h1 : 1 ≤ j) (hj : j < 2 ^ 63) :
    (∃ r ∈ docs.filter (fun r => HasPrefix r.ClientName N), r.ClientName = N) ∧
    (scanResults N (docs.filter (fun r => HasPrefix r.ClientName N))).n = (j : Int) := by
  obtain ⟨⟨r0, hr0, hn0⟩, hall, honly⟩ := hreg
  obtain ⟨_, s1, s3, s4⟩ := scanResults_spec N (docs.filter (fun r => HasPrefix r.ClientName N))
  refine ⟨⟨r0, ?_, hn0⟩, ?_⟩
  · rw [List.mem_filter]
    refine ⟨hr0, ?_⟩
    simp only [hn0]
    exact hasPrefix_self N
  · apply le_antisymm
    · rcases s3 with s3 | ⟨r, hr, s, hs, ha⟩
      · rw [s3]
        exact_mod_cast h1
      · rw [List.mem_filter] at hr
        rcases honly r hr.1 (by simpa using hr.2) with hN | ⟨m, hm2, hmj, hm⟩
        · exact absurd (hs.symm.trans hN) (suffixed_ne N s)
        · have hsm : s = decimal m := append_left_cancel _ _ _ (hs.symm.trans hm)
          rw [hsm, atoi_decimal m (by omega)] at ha
          rw [← Option.some.inj ha]
          exact_mod_cast hmj
    · by_cases hj2 : 2 ≤ j
      · obtain ⟨r, hr, hname⟩ := hall j hj2 (le_refl j)
        have hmem : r ∈ docs.filter (fun r => HasPrefix r.ClientName N) := by
          rw [List.mem_filter]
          refine ⟨hr, ?_⟩
          simp only [hname]
          exact hasPrefix_suffixed N _
        exact s4 r hmem (decimal j) j hname (atoi_decimal j hj)
      · have : j = 1 := by omega
        rw [this]
        exact_mod_cast s1

theorem registered_next_name (N : String) (j : Nat) (docs : List Client)
    (hreg : Registered N j docs) (h1 : 1 ≤ j) (hj : j < 2 ^ 63) :
    dedupName N (docs.filter (fun r => HasPrefix r.ClientName N)) =
      N ++ "-" ++ Itoa (wrapInt ((j : Int) + 1)) := by
  obtain ⟨hfound, hn⟩ := registered_scan N j docs hreg h1 hj
  rw [dedupName_of_present N _ hfound, hn]

theorem registered_succ (N : String) (j : Nat) (docs : List Client) (record : Client)
    (hreg : Registered N j docs) (hrec : record.ClientName = N ++ "-" ++ decimal (j + 1))
    (h1 : 1 ≤ j) : Registered N (j + 1) (docs ++ [record]) := by
  obtain ⟨⟨r0, hr0, hn0⟩, hall, honly⟩ := hreg
  refine ⟨⟨r0, List.mem_append_left _ hr0, hn0⟩, ?_, ?_⟩
  · intro m hm2 hmj
    by_cases hm : m ≤ j
    · obtain ⟨r, hr, hname⟩ := hall m hm2 hm
      exact ⟨r, List.mem_append_left _ hr, hname⟩
    · have : m = j + 1 := by omega
      subst this
      exact ⟨record, by simp, hrec⟩
  · intro r hr hp
    rcases List.mem_append.1 hr with hr | hr
    · rcases honly r hr hp with h | ⟨m, hm2, hmj, hm⟩
      · exact Or.inl h
      · exact Or.inr ⟨m, hm2, by omega, hm⟩
    · have : r = record := by simpa using hr
      subst this
      exact Or.inr ⟨j + 1, by omega, le_refl _, hrec⟩

theorem registered_first (N : String) (docs : List Client) (record : Client)
    (hfresh : ∀ r ∈ docs, HasPrefix r.ClientName N = false) (hrec : record.ClientName = N) :
    Registered N 1 (docs ++ [record]) := by
  refine ⟨⟨record, by simp, hrec⟩, ?_, ?_⟩
  · intro m hm2 hm1
    omega
  · intro r hr hp
    rcases List.mem_append.1 hr with hr | hr
    · rw [hfresh r hr] at hp
      cases hp
    · have : r = record := by simpa using hr
      subst this
      exact Or.inl hrec

theorem dedupName_fresh_store (N : String) (docs : List Client)
    (hfresh : ∀ r ∈ docs, HasPrefix r.ClientName N = false) :
    dedupName N (docs.filter (fun r => HasPrefix r.ClientName N)) = N := by
  apply dedupName_of_absent
  rintro ⟨r, hr, _⟩
  rw [List.mem_filter] at hr
  rw [hfresh r hr.1] at hr
  simp at hr

theorem itoa_wrap_nat (m : Nat) (h : m < 2 ^ 63) : Itoa (wrapInt (m : Int)) = decimal m := by
  have hlo : minInt ≤ (m : Int) := by
    unfold minInt
    omega
  have hhi : (m : Int) ≤ maxInt := by
    unfold maxInt
    omega
  rw [wrapInt_of_range _ hlo hhi, itoa_of_nonneg _ (by omega)]
  rfl

theorem create_valid_of_success {σ : Type} (d : Deps σ) (i : Instance) (c : Client)
    (w : World σ) (h : (Create d i c w).1 = none) : (checkMandatoryFields d i c).1 = none := by
  rcases hc : checkMandatoryFields d i c with ⟨e, c2⟩
  cases e with
  | none => rfl
  | some err =>
    unfold Create at h
    rw [hc] at h
    simp at h

theorem registerTimes_registered {d : Deps MemStore} (hF : d.FindDocs = MemStore.find)
    (hC : d.CreateDoc = MemStore.create) (i : Instance) (c : Client) (w : World MemStore)
    (hvalid : (checkMandatoryFields d i c).1 = none)
    (hfresh : ∀ r ∈ w.db.docs, HasPrefix r.ClientName c.ClientName = false) :
    ∀ j, 1 ≤ j → j < 2 ^ 63 → Registered c.ClientName j (registerTimes d i c j w).db.docs := by
  intro j
  induction j with
  | zero => intro h; omega
  | succ j ih =>
    intro _ hj
    obtain ⟨_, record, hrec, hdocs⟩ :=
      create_mem_step hF hC i c (registerTimes d i c j w) hvalid
    show Registered c.ClientName (j + 1) (Create d i c (registerTimes d i c j w)).2.2.db.docs
    rw [hdocs]
    by_cases hj0 : j = 0
    · subst hj0
      rw [show registerTimes d i c 0 w = w from rfl] at hrec ⊢
      rw [dedupName_fresh_store _ _ hfresh] at hrec
      exact registered_first _ _ _ hfresh hrec
    · have hreg := ih (by omega) (by omega)
      rw [registered_next_name _ j _ hreg (by omega) (by omega)] at hrec
      have hcast : ((j : Int) + 1) = ((j + 1 : Nat) : Int) := by push_cast; rfl
      rw [hcast, itoa_wrap_nat (j + 1) hj] at hrec
      exact registered_succ _ j _ record hreg hrec (by omega)

/-- The name of the `k`-th successive registration on the in-memory store,
`k ≥ 2`: the suffix is `Itoa` of the Go `int` sum `(k - 1) + 1`. -/
theorem kth_registration_name {d : Deps MemStore} (hF : d.FindDocs = MemStore.find)
    (hC : d.CreateDoc = MemStore.create) (i : Instance) (c : Client) (w : World MemStore)
    (hvalid : (checkMandatoryFields d i c).1 = none)
    (hfresh : ∀ r ∈ w.db.docs, HasPrefix r.ClientName c.ClientName = false)
    (k : Nat) (hk2 : 2 ≤ k) (hk : k ≤ 2 ^ 63) :
    (Create d i c (registerTimes d i c (k - 1) w)).2.1.ClientName =
      c.ClientName ++ "-" ++ Itoa (wrapInt (((k - 1 : Nat) : Int) + 1)) := by
  have hreg := registerTimes_registered hF hC i c w hvalid hfresh (k - 1) (by omega) (by omega)
  rw [(create_mem_step hF hC i c (registerTimes d i c (k - 1) w) hvalid).1]
  exact registered_next_name _ (k - 1) _ hreg (by omega) (by omega)

/-- The name picked by `Create` over the results `L` of the lookup: the
candidate's name when no result bears it; otherwise the name, a dash and
`Itoa` of the Go `int` sum `n + 1`, with `n` the largest of 1 and the integers
read behind `name + "-"`; as long as `n` is below the largest `int` the sum
is exact and the suffix is the decimal text of a number that is at least 2. -/
theorem dedupName_spec (N : String) (L : List Client) :
    ((¬ ∃ r ∈ L, r.ClientName = N) → dedupName N L = N) ∧
    ((∃ r ∈ L, r.ClientName = N) →
      ∃ n : Int, 1 ≤ n ∧
        (n = 1 ∨ ∃ r ∈ L, ∃ s, r.ClientName = N ++ "-" ++ s ∧ Atoi s = some n) ∧
        (∀ r ∈ L, ∀ s m, r.ClientName = N ++ "-" ++ s → Atoi s = some m → m ≤ n) ∧
        dedupName N L = N ++ "-" ++ Itoa (wrapInt (n + 1)) ∧
        (n < maxInt → dedupName N L = N ++ "-" ++ decimal (n + 1).toNat ∧ 2 ≤ (n + 1).toNat)) := by
  refine ⟨dedupName_of_absent N L, fun h => ?_⟩
  obtain ⟨_, s1, s3, s4⟩ := scanResults_spec N L
  refine ⟨(scanResults N L).n, s1, s3, s4, dedupName_of_present N L h, fun hlt => ?_⟩
  have hnat : (((scanResults N L).n + 1).toNat : Int) = (scanResults N L).n + 1 :=
    Int.toNat_of_nonneg (by omega)
  have hbound : ((scanResults N L).n + 1).toNat < 2 ^ 63 := by
    unfold maxInt at hlt
    omega
  refine ⟨?_, by omega⟩
  have hi := itoa_wrap_nat _ hbound
  rw [hnat] at hi
  rw [dedupName_of_present N L h, hi]

theorem create_mem_success {d : Deps MemStore} (hF : d.FindDocs = MemStore.find)
    (hC : d.CreateDoc = MemStore.create)
    (hJ : ∀ key cl, ∃ token, d.NewJWT key cl = Except.ok token)
    (i : Instance) (c : Client) (w : World MemStore)
    (hvalid : (checkMandatoryFields d i c).1 = none) : (Create d i c w).1 = none := by
  have hfind : d.FindDocs w.db
      { UseIndex := "by-client-name", Selector := Filter.StartWith "client_name" c.ClientName,
        Limit := 0 } =
      (Except.ok (w.db.docs.filter (fun r => HasPrefix r.ClientName c.ClientName)), w.db) := by
    rw [hF, memFind_startWith]
  rw [(create_name d i c w _ w.db hvalid hfind).2]
  unfold createWith
  simp only [hC, MemStore.create]
  split
  · rename_i e heq
    obtain ⟨token, ht⟩ := hJ i.OAuthSecret
      (registrationClaims i w.now ("id" ++ decimal w.db.nextID))
    exact absurd (heq.symm.trans ht) (by simp)
  · rfl

/-- C3, at the failing input. The store holds "App-9223372036854775807" and
"App"; the suffix behind "App-" reads as the largest Go `int`, so `n + 1`
wraps around: the next registration of "App" succeeds with the name
"App--9223372036854775808", not with "App-9223372036854775808", and the number
appended is negative. -/
theorem create_suffix_overflow :
    storedNames (registerAll exampleDeps exampleInstance [maxSuffixCandidate, appCandidate]
      exampleWorld) = ["App-9223372036854775807", "App"] ∧
    Atoi "9223372036854775807" = some 9223372036854775807 ∧
    (Create exampleDeps exampleInstance appCandidate
      (registerAll exampleDeps exampleInstance [maxSuffixCandidate, appCandidate]
        exampleWorld)).1 = none ∧
    (Create exampleDeps exampleInstance appCandidate
      (registerAll exampleDeps exampleInstance [maxSuffixCandidate, appCandidate]
        exampleWorld)).2.1.ClientName = "App--9223372036854775808" ∧
    Atoi "-9223372036854775808" = some (-9223372036854775808) := by
  decide

/-- C4, at the failing input. After the registrations of
"App-9223372036854775807", "App" and "App", the prefix query on "App" returns
three clients, one of them named "App--9223372036854775808"; a further
registration of "App" succeeds and is given that very name, so the store ends
with two clients of the same display name. -/
theorem create_duplicate_name :
    storedNames (registerAll exampleDeps exampleInstance
      [maxSuffixCandidate, appCandidate, appCandidate] exampleWorld) =
      ["App-9223372036854775807", "App", "App--9223372036854775808"] ∧
    (Create exampleDeps exampleInstance appCandidate
      (registerAll exampleDeps exampleInstance
        [maxSuffixCandidate, appCandidate, appCandidate] exampleWorld)).1 = none ∧
    (Create exampleDeps exampleInstance appCandidate
      (registerAll exampleDeps exampleInstance
        [maxSuffixCandidate, appCandidate, appCandidate] exampleWorld)).2.1.ClientName
      = "App--9223372036854775808" ∧
    ¬ (storedNames (registerAll exampleDeps exampleInstance
      [maxSuffixCandidate, appCandidate, appCandidate, appCandidate] exampleWorld)).Nodup := by
  decide

/-! ## ValidToken -/

theorem validToken_empty {σ : Type} (d : Deps σ) (i : Instance) (c : Client) (now : Int)
    (a : String) : ValidToken d i c now a "" = (zeroClaims, false) := by
  simp [ValidToken]

theorem validToken_parse_error {σ : Type} (d : Deps σ) (i : Instance) (c : Client) (now : Int)
    (a t : String) (ht : t ≠ "") (h : (d.ParseJWT i.OAuthSecret now t).1 ≠ none) :
    ValidToken d i c now a t = ((d.ParseJWT i.OAuthSecret now t).2, false) := by
  unfold ValidToken
  rw [if_neg ht]
  rcases hp : d.ParseJWT i.OAuthSecret now t with ⟨e, cl⟩
  rw [hp] at h
  cases e with
  | none => exact absurd rfl h
  | some err => rfl

theorem validToken_parsed {σ : Type} (d : Deps σ) (i : Instance) (c : Client) (now : Int)
    (a t : String) (cl : Claims) (ht : t ≠ "")
    (h : d.ParseJWT i.OAuthSecret now t = (none, cl)) :
    ValidToken d i c now a t =
      (cl, !Expired cl now && decide (cl.Audience = a) && decide (cl.Issuer = i.Domain)
            && decide (cl.Subject = c.CouchID)) := by
  unfold ValidToken
  rw [if_neg ht, h]
  simp only
  by_cases h1 : Expired cl now = true
  · simp [h1]
  · by_cases h2 : cl.Audience = a
    · by_cases h3 : cl.Issuer = i.Domain
      · by_cases h4 : cl.Subject = c.CouchID
        · simp [h1, h2, h3, h4]
        · simp [h1, h2, h3, h4]
      · simp [h1, h2, h3]
    · simp [h1, h2]

/-- C12, amended. `ValidToken` answers `true` exactly when the six checks pass:
the token is not empty, it parses under the instance's key, the parsed claims
are not expired, and their audience, issuer and subject are the expected
audience, the instance's domain and the client's `CouchID`. For an empty token
it returns the zero claims with `false`. For every other token, accepted or
refused, the claims it returns are the ones the codec left after parsing: a
refused call hands the parsed claims to the caller along with `false`. -/
theorem validToken_iff {σ : Type} (d : Deps σ) (i : Instance) (c : Client) (now : Int)
    (a t : String) :
    ((ValidToken d i c now a t).2 = true ↔
      (t ≠ "" ∧ (d.ParseJWT i.OAuthSecret now t).1 = none ∧
        Expired (d.ParseJWT i.OAuthSecret now t).2 now = false ∧
        (d.ParseJWT i.OAuthSecret now t).2.Audience = a ∧
        (d.ParseJWT i.OAuthSecret now t).2.Issuer = i.Domain ∧
        (d.ParseJWT i.OAuthSecret now t).2.Subject = c.CouchID)) ∧
    (t = "" → ValidToken d i c now a t = (zeroClaims, false)) ∧
    (t ≠ "" → (ValidToken d i c now a t).1 = (d.ParseJWT i.OAuthSecret now t).2) := by
  by_cases ht : t = ""
  · subst ht
    simp [validToken_empty]
  · rcases hp : d.ParseJWT i.OAuthSecret now t with ⟨e, cl⟩
    cases e with
    | some err =>
      have h := validToken_parse_error d i c now a t ht (by rw [hp]; simp)
      rw [hp] at h
      simp [h, ht]
    | none =>
      have h := validToken_parsed d i c now a t cl ht hp
      simp [h, ht]
      tauto

theorem validToken_iff_witness :
    (ValidToken exampleDeps exampleInstance previousVersion 1600000000 "registration"
      "AQID|registration|0||1500000000|cozy.example|0|id0|").2 = true ∧
    ValidToken exampleDeps exampleInstance previousVersion 1600000000 "registration" "" =
      (zeroClaims, false) ∧
    (ValidToken exampleDeps exampleInstance previousVersion 1600000000 "refresh"
      "AQID|registration|0||1500000000|cozy.example|0|id0|").1 =
      registrationClaims exampleInstance 1500000000 "id0" :=
  ⟨(validToken_iff exampleDeps exampleInstance previousVersion 1600000000 "registration"
      "AQID|registration|0||1500000000|cozy.example|0|id0|").1.2
      ⟨by decide, by decide, by decide, by decide, by decide, by decide⟩,
   (validToken_iff exampleDeps exampleInstance previousVersion 1600000000 "registration"
      "").2.1 rfl,
   ((validToken_iff exampleDeps exampleInstance previousVersion 1600000000 "refresh"
      "AQID|registration|0||1500000000|cozy.example|0|id0|").2.2 (by decide)).trans
      (by decide)⟩

/-! ## Redirect URIs and lookups -/

theorem acceptLoop_iff (u : String) (l : List String) : acceptLoop u l = true ↔ u ∈ l := by
  induction l with
  | nil => simp [acceptLoop]
  | cons a l ih =>
    by_cases h : u = a
    · simp [acceptLoop, h]
    · simp [acceptLoop, h, ih]

theorem createWith_redirectURIs {σ : Type} (d : Deps σ) (i : Instance) (c : Client)
    (L : List Client) (w : World σ) :
    (createWith d i c L w).2.1.RedirectURIs = c.RedirectURIs := by
  unfold createWith
  simp only
  split
  · rfl
  · split <;> rfl

theorem check_redirectURIs {σ : Type} (d : Deps σ) (i : Instance) (c : Client) :
    (checkMandatoryFields d i c).2.RedirectURIs = c.RedirectURIs := by
  unfold checkMandatoryFields
  cases hf : firstInvalidRedirect d i c.RedirectURIs with
  | some v =>
    simp only
    split_ifs <;> rfl
  | none =>
    simp only
    split_ifs <;> rfl

theorem create_redirectURIs {σ : Type} (d : Deps σ) (i : Instance) (c : Client) (w : World σ) :
    (Create d i c w).2.1.RedirectURIs = c.RedirectURIs := by
  have hr := check_redirectURIs d i c
  unfold Create
  rcases hc : checkMandatoryFields d i c with ⟨e, c2⟩
  rw [hc] at hr
  simp only at hr
  cases e with
  | some err => exact hr
  | none =>
    simp only
    split
    · split
      · exact hr
      · rw [createWith_redirectURIs]; exact hr
    · rw [createWith_redirectURIs]; exact hr

/-- C18. `AcceptRedirectURI` answers `true` exactly when the given string is
equal to an element of the client's `RedirectURIs` (string equality, nothing
else); it answers `false` for every string when the list is empty; and after a
successful `Create` it answers `true` for each redirect URI of the candidate. -/
theorem acceptRedirectURI_iff (c : Client) (u : String) :
    (AcceptRedirectURI c u = true ↔ ∃ uri ∈ c.RedirectURIs, u = uri) ∧
    (c.RedirectURIs = [] → AcceptRedirectURI c u = false) ∧
    (∀ {σ : Type} (d : Deps σ) (i : Instance) (w w1 : World σ) (c1 : Client),
      Create d i c w = (none, c1, w1) → u ∈ c.RedirectURIs → AcceptRedirectURI c1 u = true) := by
  refine ⟨?_, ?_, ?_⟩
  · unfold AcceptRedirectURI
    rw [acceptLoop_iff]
    simp
  · intro h
    simp [AcceptRedirectURI, h, acceptLoop]
  · intro σ d i w w1 c1 hC hu
    have h := create_redirectURIs d i c w
    rw [hC] at h
    unfold AcceptRedirectURI
    rw [acceptLoop_iff]
    simp only at h
    rw [h]
    exact hu

theorem acceptRedirectURI_iff_witness :
    AcceptRedirectURI (candidate ["https://app.example/cb"] "Foo" "sw1")
      "https://app.example/cb" = true ∧
    AcceptRedirectURI (candidate [] "Foo" "sw1") "https://app.example/cb" = false ∧
    AcceptRedirectURI (Create exampleDeps exampleInstance noisyCandidate exampleWorld).2.1
      "https://app.example/cb" = true :=
  ⟨(acceptRedirectURI_iff (candidate ["https://app.example/cb"] "Foo" "sw1")
      "https://app.example/cb").1.2 ⟨"https://app.example/cb", by decide, rfl⟩,
   (acceptRedirectURI_iff (candidate [] "Foo" "sw1") "https://app.example/cb").2.1 rfl,
   (acceptRedirectURI_iff noisyCandidate "https://app.example/cb").2.2 exampleDeps
      exampleInstance exampleWorld
      (Create exampleDeps exampleInstance noisyCandidate exampleWorld).2.2
      (Create exampleDeps exampleInstance noisyCandidate exampleWorld).2.1
      (Prod.ext (by decide) rfl) (by decide)⟩

/-- C19. When the store query succeeds, `GetAll` returns the documents of the
store in the same number and order, each with an empty `ClientSecret` and
every other field unchanged; when the store query fails, `GetAll` returns that
error and no clients. -/
theorem getAll_strips_secrets {σ : Type} (d : Deps σ) (w : World σ) :
    (∀ docs db, d.GetAllDocs w.db { Limit := 100 } = (Except.ok docs, db) →
      ∃ clients, GetAll d w = (Except.ok clients, { w with db := db }) ∧
        clients.length = docs.length ∧
        (∀ r ∈ clients, r.ClientSecret = "") ∧
        (∀ k (hk : k < docs.length) (hk2 : k < clients.length),
          clients.get ⟨k, hk2⟩ = { docs.get ⟨k, hk⟩ with ClientSecret := "" })) ∧
    (∀ err db, d.GetAllDocs w.db { Limit := 100 } = (Except.error err, db) →
      GetAll d w = (Except.error err, { w with db := db })) := by
  constructor
  · intro docs db h
    refine ⟨docs.map (fun client => { client with ClientSecret := "" }), ?_, ?_, ?_, ?_⟩
    · simp [GetAll, h]
    · simp
    · intro r hr
      obtain ⟨r0, _, rfl⟩ := List.mem_map.1 hr
      rfl
    · intro k hk hk2
      simp
  · intro err db h
    simp [GetAll, h]

theorem getAll_strips_secrets_witness :
    ∃ clients, GetAll exampleDeps storedWorld = (Except.ok clients, storedWorld) ∧
      clients.length = 1 ∧ (∀ r ∈ clients, r.ClientSecret = "") :=
  ((getAll_strips_secrets exampleDeps storedWorld).1
      [{ previousVersion with ClientID := "" }] storedWorld.db rfl).elim
    fun clients h => ⟨clients, h.1, h.2.1, h.2.2.1⟩

/-! ## Notification platform -/

theorem check_platform {σ : Type} (d : Deps σ) (i : Instance) (c : Client)
    (hne : c.RedirectURIs ≠ [])
    (hok : ∀ u ∈ c.RedirectURIs, invalidRedirect d i u = false)
    (hname : c.ClientName ≠ "") (hsw : c.SoftwareID ≠ "") :
    checkMandatoryFields d i c =
      if d.ToLower c.NotificationPlatform = "" ∨ d.ToLower c.NotificationPlatform = "firebase"
          ∨ d.ToLower c.NotificationPlatform = "apns" ∨ d.ToLower c.NotificationPlatform = "ios"
          ∨ d.ToLower c.NotificationPlatform = "android" then (none, lowered d c)
      else (some { Code := 400, Error := "invalid_client_metadata", Description := "" },
            lowered d c) := by
  have hlen : c.RedirectURIs.length ≠ 0 := by
    intro h0
    exact hne (List.length_eq_zero.1 h0)
  have hf := (firstInvalidRedirect_eq_none d i c.RedirectURIs).2 hok
  unfold checkMandatoryFields
  simp only [hlen, hf, hname, hsw, if_false, PlatformFirebase, PlatformAPNS, StatusBadRequest]
  by_cases h1 : d.ToLower c.NotificationPlatform = "" ∨
      d.ToLower c.NotificationPlatform = "firebase" ∨ d.ToLower c.NotificationPlatform = "apns"
  · rw [if_pos h1, if_pos (by tauto)]
    rfl
  · rw [if_neg h1]
    by_cases h2 : d.ToLower c.NotificationPlatform = "ios" ∨
        d.ToLower c.NotificationPlatform = "android"
    · rw [if_pos h2, if_pos (by tauto)]
      rfl
    · rw [if_neg h2, if_neg (by tauto)]
      rfl

theorem check_accepted_platform {σ : Type} (d : Deps σ) (i : Instance) (c : Client)
    (h : (checkMandatoryFields d i c).1 = none) :
    d.ToLower c.NotificationPlatform = "" ∨ d.ToLower c.NotificationPlatform = "firebase"
      ∨ d.ToLower c.NotificationPlatform = "apns" ∨ d.ToLower c.NotificationPlatform = "ios"
      ∨ d.ToLower c.NotificationPlatform = "android" := by
  unfold checkMandatoryFields at h
  cases hf : firstInvalidRedirect d i c.RedirectURIs with
  | some v =>
    simp only [hf] at h
    split_ifs at h
  | none =>
    simp only [hf, PlatformFirebase, PlatformAPNS] at h
    split_ifs at h with _ _ _ h1 h2
    · tauto
    · tauto

/-- C16, counterexample. A candidate with notification platform "iOS" passes
`checkMandatoryFields`, and the platform it is left with is "ios": the alias
is lower-cased and kept, not replaced by "firebase" or "apns". -/
theorem legacy_alias_kept :
    checkMandatoryFields exampleDeps exampleInstance
      { candidate ["https://app.example/cb"] "Foo" "sw1" with NotificationPlatform := "iOS" } =
      (none,
       { candidate ["https://app.example/cb"] "Foo" "sw1" with NotificationPlatform := "ios" }) ∧
    "ios" ≠ "" ∧ "ios" ≠ PlatformFirebase ∧ "ios" ≠ PlatformAPNS := by
  decide

/-- C16, amended. Validation accepts the two legacy aliases "ios" and
"android" in any letter case and keeps them in lower case: for every client
that passes `checkMandatoryFields`, the resulting `NotificationPlatform` is
the lower-cased input and is one of "", "firebase", "apns", "ios" and
"android"; and a client with valid redirect URIs, name and software id whose
lower-cased platform is "ios" or "android" passes. -/
theorem platform_after_validation {σ : Type} (d : Deps σ) (i : Instance) (c : Client) :
    ((checkMandatoryFields d i c).1 = none →
      (checkMandatoryFields d i c).2.NotificationPlatform = d.ToLower c.NotificationPlatform ∧
      ((checkMandatoryFields d i c).2.NotificationPlatform = "" ∨
       (checkMandatoryFields d i c).2.NotificationPlatform = PlatformFirebase ∨
       (checkMandatoryFields d i c).2.NotificationPlatform = PlatformAPNS ∨
       (checkMandatoryFields d i c).2.NotificationPlatform = "ios" ∨
       (checkMandatoryFields d i c).2.NotificationPlatform = "android")) ∧
    (c.RedirectURIs ≠ [] → (∀ u ∈ c.RedirectURIs, invalidRedirect d i u = false) →
      c.ClientName ≠ "" → c.SoftwareID ≠ "" →
      (d.ToLower c.NotificationPlatform = "ios" ∨ d.ToLower c.NotificationPlatform = "android") →
      checkMandatoryFields d i c = (none, lowered d c)) := by
  constructor
  · intro h
    have hp := check_accepted_platform d i c h
    rw [check_accepts d i c h]
    exact ⟨rfl, hp⟩
  · intro hne hok hname hsw hp
    rw [check_platform d i c hne hok hname hsw, if_pos (by tauto)]

theorem platform_after_validation_witness :
    (checkMandatoryFields exampleDeps exampleInstance
      { candidate ["https://app.example/cb"] "Foo" "sw1" with
        NotificationPlatform := "Android" }).2.NotificationPlatform = "android" ∧
    checkMandatoryFields exampleDeps exampleInstance
      { candidate ["https://app.example/cb"] "Foo" "sw1" with NotificationPlatform := "Android" }
      = (none, lowered exampleDeps
          { candidate ["https://app.example/cb"] "Foo" "sw1" with
            NotificationPlatform := "Android" }) :=
  ⟨((platform_after_validation exampleDeps exampleInstance
      { candidate ["https://app.example/cb"] "Foo" "sw1" with
        NotificationPlatform := "Android" }).1 (by decide)).1.trans (by decide),
   (platform_after_validation exampleDeps exampleInstance
      { candidate ["https://app.example/cb"] "Foo" "sw1" with
        NotificationPlatform := "Android" }).2 (by decide) (by decide) (by decide) (by decide)
      (Or.inr (by decide))⟩

theorem pinFields_platform (c old : Client) :
    (pinFields c old).NotificationPlatform =
      if c.NotificationPlatform = "" then old.NotificationPlatform
      else c.NotificationPlatform := by
  unfold pinFields
  simp only
  split_ifs <;> rfl

theorem prepareUpdate_platform {σ : Type} (d : Deps σ) (i : Instance) (c old doc : Client)
    (w w1 : World σ) (h : prepareUpdate d i c old w = (none, doc, w1)) :
    doc.NotificationPlatform =
      if d.ToLower c.NotificationPlatform = "" then old.NotificationPlatform
      else d.ToLower c.NotificationPlatform := by
  unfold prepareUpdate at h
  by_cases h1 : c.ClientID = old.ClientID
  swap
  · simp [h1] at h
  simp only [h1, ne_eq, not_true_eq_false, if_false] at h
  rcases hc : checkMandatoryFields d i c with ⟨e, c2⟩
  rw [hc] at h
  cases e with
  | some err => simp at h
  | none =>
    have hc2 := check_accepts d i c (by rw [hc])
    rw [hc] at hc2
    obtain rfl : c2 = lowered d c := (Prod.mk.inj hc2).2
    simp only at h
    split_ifs at h
    · rw [← (Prod.mk.inj (Prod.mk.inj h).2).1, pinFields_platform]
      rfl
    · rw [← (Prod.mk.inj (Prod.mk.inj h).2).1, pinFields_platform]
      rfl
    · simp at h

/-- C17, counterexample. A candidate with valid fields and an empty
notification platform is updated against a previous version whose platform is
"firebase": validation accepts, the lower-cased input is the empty string, the
update succeeds, and the platform of the stored record is "firebase". And a
candidate with the unknown platform "windows" whose client identifier differs
from the previous version's is refused by `Update` with `invalid_client_id`,
not with `invalid_client_metadata`. -/
theorem update_platform_fallback :
    (checkMandatoryFields exampleDeps exampleInstance (updateCandidate "")).1 = none ∧
    exampleDeps.ToLower (updateCandidate "").NotificationPlatform = "" ∧
    (Update exampleDeps exampleInstance (updateCandidate "") previousFirebase storedWorld).1
      = none ∧
    storedPlatforms
      (Update exampleDeps exampleInstance (updateCandidate "") previousFirebase storedWorld).2.2
      = ["firebase"] ∧
    (Update exampleDeps exampleInstance
      { updateCandidate "" with ClientID := "other", NotificationPlatform := "windows" }
      previousVersion storedWorld).1 =
      some { Code := 400, Error := "invalid_client_id",
             Description := "client_id is mandatory" } := by
  decide

/-- C17, amended. For a candidate with valid redirect URIs, name and software
id, `checkMandatoryFields` accepts exactly when the lower-cased notification
platform is one of "", "firebase", "apns", "ios" and "android". When it
accepts, the platform it leaves in the candidate is the lower-cased input, and
so is the platform of the record `Create` hands to the store; the record
`Update` hands to the store has the lower-cased input unless it is empty, and
then the platform of the previous version. For every other value `Create`,
and `Update` when the client identifiers agree, return code 400 with error
`invalid_client_metadata`, and the world (the store with it) is as before. -/
theorem platform_validation_iff {σ : Type} (d : Deps σ) (i : Instance) (c old : Client)
    (w : World σ) (hne : c.RedirectURIs ≠ [])
    (hok : ∀ u ∈ c.RedirectURIs, invalidRedirect d i u = false)
    (hname : c.ClientName ≠ "") (hsw : c.SoftwareID ≠ "") :
    ((checkMandatoryFields d i c).1 = none ↔
      (d.ToLower c.NotificationPlatform = "" ∨ d.ToLower c.NotificationPlatform = "firebase"
        ∨ d.ToLower c.NotificationPlatform = "apns" ∨ d.ToLower c.NotificationPlatform = "ios"
        ∨ d.ToLower c.NotificationPlatform = "android")) ∧
    ((checkMandatoryFields d i c).1 = none →
      (checkMandatoryFields d i c).2.NotificationPlatform = d.ToLower c.NotificationPlatform ∧
      ∀ L bytes, (createRecord (checkMandatoryFields d i c).2 L bytes).NotificationPlatform =
        d.ToLower c.NotificationPlatform) ∧
    (∀ doc w1, prepareUpdate d i c old w = (none, doc, w1) →
      Update d i c old w = writeUpdate d doc w1 ∧
      doc.NotificationPlatform =
        if d.ToLower c.NotificationPlatform = "" then old.NotificationPlatform
        else d.ToLower c.NotificationPlatform) ∧
    (¬ (d.ToLower c.NotificationPlatform = "" ∨ d.ToLower c.NotificationPlatform = "firebase"
        ∨ d.ToLower c.NotificationPlatform = "apns" ∨ d.ToLower c.NotificationPlatform = "ios"
        ∨ d.ToLower c.NotificationPlatform = "android") →
      Create d i c w =
        (some { Code := 400, Error := "invalid_client_metadata", Description := "" },
         lowered d c, w) ∧
      (c.ClientID = old.ClientID →
        Update d i c old w =
          (some { Code := 400, Error := "invalid_client_metadata", Description := "" },
           lowered d c, w))) := by
  have hcp := check_platform d i c hne hok hname hsw
  refine ⟨⟨check_accepted_platform d i c, fun hp => ?_⟩, fun h => ?_, fun doc w1 h => ?_,
    fun hp => ?_⟩
  · rw [hcp, if_pos hp]
  · rw [check_accepts d i c h]
    exact ⟨rfl, fun _ _ => rfl⟩
  · refine ⟨?_, prepareUpdate_platform d i c old doc w w1 h⟩
    simp [Update, h]
  · rw [if_neg hp] at hcp
    refine ⟨?_, fun hid => ?_⟩
    · simp [Create, hcp]
    · simp [Update, prepareUpdate, hid, hcp]

theorem platform_validation_iff_witness :
    (checkMandatoryFields exampleDeps exampleInstance
      { updateCandidate "" with NotificationPlatform := "APNS" }).2.NotificationPlatform
      = "apns" ∧
    (prepareUpdate exampleDeps exampleInstance (updateCandidate "") previousFirebase
      storedWorld).2.1.NotificationPlatform = "firebase" ∧
    Update exampleDeps exampleInstance
        { updateCandidate "" with NotificationPlatform := "windows" } previousVersion
        storedWorld =
      (some { Code := 400, Error := "invalid_client_metadata", Description := "" },
       lowered exampleDeps { updateCandidate "" with NotificationPlatform := "windows" },
       storedWorld) :=
  ⟨((platform_validation_iff exampleDeps exampleInstance
      { updateCandidate "" with NotificationPlatform := "APNS" } previousVersion storedWorld
      (by decide) (by decide) (by decide) (by decide)).2.1 (by decide)).1.trans (by decide),
   ((platform_validation_iff exampleDeps exampleInstance (updateCandidate "") previousFirebase
      storedWorld (by decide) (by decide) (by decide) (by decide)).2.2.1
      (prepareUpdate exampleDeps exampleInstance (updateCandidate "") previousFirebase
        storedWorld).2.1
      storedWorld (Prod.ext (by decide) rfl)).2.trans (by decide),
   ((platform_validation_iff exampleDeps exampleInstance
      { updateCandidate "" with NotificationPlatform := "windows" } previousVersion storedWorld
      (by decide) (by decide) (by decide) (by decide)).2.2.2 (by decide)).2 rfl⟩

/-! ## Storage failures of `Update` -/

/-- C15, counterexample. On the in-memory store, an update from a stale
revision is refused by the store with a conflict (409) and an update of a
missing record with not-found (404); `Update` fails in both cases and returns
the same error value, `internal_server_error` with code 500. -/
theorem update_conflict_not_distinct :
    storeError (exampleDeps.UpdateDoc storedWorld.db
      (prepareUpdate exampleDeps exampleInstance (updateCandidate "") stalePrevious
        storedWorld).2.1).1 =
      some { StatusCode := 409, Name := "conflict", Reason := "Document update conflict." } ∧
    storeError (exampleDeps.UpdateDoc storedWorld.db
      (prepareUpdate exampleDeps exampleInstance (updateCandidate "") missingPrevious
        storedWorld).2.1).1 =
      some { StatusCode := 404, Name := "not_found", Reason := "missing" } ∧
    (Update exampleDeps exampleInstance (updateCandidate "") stalePrevious storedWorld).1 =
      some { Code := 500, Error := "internal_server_error", Description := "" } ∧
    (Update exampleDeps exampleInstance (updateCandidate "") missingPrevious storedWorld).1 =
      (Update exampleDeps exampleInstance (updateCandidate "") stalePrevious storedWorld).1 := by
  decide

/-- C15, amended. When the store refuses the write of `Update`, for a
conflict as for any other reason, `Update` fails with code 500 and error
`internal_server_error`: the error it returns does not depend on the error of
the store. The client is left as the record that was handed to the store. -/
theorem update_store_failure {σ : Type} (d : Deps σ) (i : Instance) (c old doc : Client)
    (w w1 : World σ) (e : CouchError) (db : σ)
    (hprep : prepareUpdate d i c old w = (none, doc, w1))
    (hstore : d.UpdateDoc w1.db doc = (Except.error e, db)) :
    Update d i c old w =
      (some { Code := 500, Error := "internal_server_error", Description := "" }, doc,
       { w1 with db := db }) := by
  simp [Update, hprep, writeUpdate, hstore, internalServerError, StatusInternalServerError]

theorem update_store_failure_witness :
    (Update exampleDeps exampleInstance (updateCandidate "") stalePrevious storedWorld).1 =
      some { Code := 500, Error := "internal_server_error", Description := "" } :=
  congrArg Prod.fst
    (update_store_failure exampleDeps exampleInstance (updateCandidate "") stalePrevious
      (prepareUpdate exampleDeps exampleInstance (updateCandidate "") stalePrevious
        storedWorld).2.1
      storedWorld storedWorld
      { StatusCode := 409, Name := "conflict", Reason := "Document update conflict." }
      storedWorld.db rfl rfl)

/-! ## Tokens minted by the registry -/

theorem create_success {σ : Type} (d : Deps σ) (i : Instance) (c c1 : Client)
    (w w1 : World σ) (h : Create d i c w = (none, c1, w1)) :
    ∃ L db0 id rev db token,
      d.CreateDoc db0 (createRecord (lowered d c) L (GenerateRandomBytes w ClientSecretLen).1)
        = (Except.ok (id, rev), db) ∧
      d.NewJWT i.OAuthSecret (registrationClaims i w.now id) = Except.ok token ∧
      c1 = TransformIDAndRev
        { createRecord (lowered d c) L (GenerateRandomBytes w ClientSecretLen).1 with
          CouchID := id, CouchRev := rev, RegistrationToken := token } := by
  have key : ∀ (L : List Client) (db0 : σ),
      createWith d i (lowered d c) L { w with db := db0 } = (none, c1, w1) →
      ∃ L db0 id rev db token,
        d.CreateDoc db0 (createRecord (lowered d c) L (GenerateRandomBytes w ClientSecretLen).1)
          = (Except.ok (id, rev), db) ∧
        d.NewJWT i.OAuthSecret (registrationClaims i w.now id) = Except.ok token ∧
        c1 = TransformIDAndRev
          { createRecord (lowered d c) L (GenerateRandomBytes w ClientSecretLen).1 with
            CouchID := id, CouchRev := rev, RegistrationToken := token } := by
    intro L db0 hcw
    obtain ⟨id, rev, db, token, hcd, hj, hc1⟩ := createWith_success d i _ c1 L _ w1 hcw
    exact ⟨L, db0, id, rev, db, token, hcd, hj, hc1⟩
  unfold Create at h
  rcases hc : checkMandatoryFields d i c with ⟨e, c2⟩
  rw [hc] at h
  cases e with
  | some err => simp at h
  | none =>
    have hc2 := check_accepts d i c (by rw [hc])
    rw [hc] at hc2
    obtain rfl : c2 = lowered d c := (Prod.mk.inj hc2).2
    simp only at h
    rcases hf : d.FindDocs w.db
      { UseIndex := "by-client-name",
        Selector := Filter.StartWith "client_name" (lowered d c).ClientName, Limit := 0 }
      with ⟨res, db0⟩
    rw [hf] at h
    cases res with
    | error e =>
      simp only at h
      split_ifs at h
      · simp at h
      · exact key [] db0 h
    | ok results => exact key results db0 h

theorem expired_of_no_expiry (cl : Claims) (now : Int) (h : cl.ExpiresAt = 0) :
    Expired cl now = false := by
  simp [Expired, h]

/-- C11. After a successful `Create` on instance `i`, the registration token
of the client is the token signed with `i`'s OAuth secret over the claims with
audience `RegistrationTokenAudience`, issuer `i.Domain`, subject the
identifier assigned by the store (the `ClientID` returned), issued at the time
of the call, and no expiry. Consequently, when the token is a non-empty string
that the codec parses back, under the same key, into the claims that were
signed, `ValidToken` of the stored client (any client whose `CouchID` is that
identifier) accepts it for the registration audience and returns those
claims. -/
theorem registration_token_valid {σ : Type} (d : Deps σ) (i : Instance) (c c1 : Client)
    (w w1 : World σ) (h : Create d i c w = (none, c1, w1)) :
    d.NewJWT i.OAuthSecret (registrationClaims i w.now c1.ClientID)
      = Except.ok c1.RegistrationToken ∧
    (registrationClaims i w.now c1.ClientID).Audience = RegistrationTokenAudience ∧
    (registrationClaims i w.now c1.ClientID).Issuer = i.Domain ∧
    (registrationClaims i w.now c1.ClientID).Subject = c1.ClientID ∧
    (registrationClaims i w.now c1.ClientID).IssuedAt = w.now ∧
    (registrationClaims i w.now c1.ClientID).ExpiresAt = 0 ∧
    (∃ db0 doc rev db, d.CreateDoc db0 doc = (Except.ok (c1.ClientID, rev), db)) ∧
    (∀ (stored : Client) (now : Int), stored.CouchID = c1.ClientID →
      c1.RegistrationToken ≠ "" →
      d.ParseJWT i.OAuthSecret now c1.RegistrationToken =
        (none, registrationClaims i w.now c1.ClientID) →
      ValidToken d i stored now RegistrationTokenAudience c1.RegistrationToken =
        (registrationClaims i w.now c1.ClientID, true)) := by
  obtain ⟨L, db0, id, rev, db, token, hcd, hj, rfl⟩ := create_success d i c c1 w w1 h
  refine ⟨hj, rfl, rfl, rfl, rfl, rfl, ⟨db0, _, rev, db, hcd⟩, ?_⟩
  intro stored now hid htok hparse
  rw [validToken_parsed d i stored now _ _ _ htok hparse, expired_of_no_expiry _ _ rfl]
  simp [registrationClaims, hid, TransformIDAndRev]

theorem registration_token_valid_witness :
    (Create exampleDeps exampleInstance noisyCandidate exampleWorld).2.1.RegistrationToken =
      "AQID|registration|0||1500000000|cozy.example|0|id0|" ∧
    (ValidToken exampleDeps exampleInstance previousVersion 1600000000 RegistrationTokenAudience
      (Create exampleDeps exampleInstance noisyCandidate exampleWorld).2.1.RegistrationToken).2
      = true :=
  ⟨by decide,
   congrArg Prod.snd
     ((registration_token_valid exampleDeps exampleInstance noisyCandidate
        (Create exampleDeps exampleInstance noisyCandidate exampleWorld).2.1 exampleWorld
        (Create exampleDeps exampleInstance noisyCandidate exampleWorld).2.2
        (Prod.ext (by decide) rfl)).2.2.2.2.2.2.2 previousVersion 1600000000
        (by decide) (by decide) (by decide))⟩

/-- C13. Audience isolation. Let `token` be the non-empty token that
`CreateJWT` returns for audience `a` and scope `s`, and assume the codec
parses it back, under the same key, into the claims that were signed. Then
`ValidToken` rejects it for every expected audience `b ≠ a`, and accepts it
for `a`, returning claims whose scope is `s` (these claims carry no expiry, so
they are not expired). In particular a token for the audience "registration" is
rejected for "refresh", and a token for "refresh" is rejected for
"registration". -/
theorem audience_isolation {σ : Type} (d : Deps σ) (i : Instance) (c : Client)
    (issuedAt now : Int) (a s token : String)
    (hsign : CreateJWT d i c issuedAt a s = Except.ok token) (htok : token ≠ "")
    (hinv : d.ParseJWT i.OAuthSecret now token = (none, accessClaims i c issuedAt a s)) :
    d.NewJWT i.OAuthSecret (accessClaims i c issuedAt a s) = Except.ok token ∧
    (∀ b, a ≠ b → (ValidToken d i c now b token).2 = false) ∧
    ValidToken d i c now a token = (accessClaims i c issuedAt a s, true) ∧
    (ValidToken d i c now a token).1.Scope = s ∧
    (a = "registration" → (ValidToken d i c now "refresh" token).2 = false) ∧
    (a = "refresh" → (ValidToken d i c now "registration" token).2 = false) := by
  have hv : ∀ b, ValidToken d i c now b token =
      (accessClaims i c issuedAt a s, decide (a = b)) := by
    intro b
    rw [validToken_parsed d i c now b token _ htok hinv, expired_of_no_expiry _ _ rfl]
    simp [accessClaims]
  have hrej : ∀ b, a ≠ b → (ValidToken d i c now b token).2 = false := by
    intro b hab
    rw [hv b]
    simp [hab]
  refine ⟨hsign, hrej, ?_, ?_, ?_, ?_⟩
  · rw [hv a]
    simp
  · rw [hv a]
    rfl
  · intro ha
    exact hrej _ (by rw [ha]; decide)
  · intro ha
    exact hrej _ (by rw [ha]; decide)

theorem audience_isolation_witness :
    (ValidToken exampleDeps exampleInstance previousVersion 1600000000 "refresh"
      "AQID|registration|0||1500000000|cozy.example|0|id0|login").2 = false ∧
    ValidToken exampleDeps exampleInstance previousVersion 1600000000 "registration"
      "AQID|registration|0||1500000000|cozy.example|0|id0|login" =
      (accessClaims exampleInstance previousVersion 1500000000 "registration" "login", true) :=
  have h := audience_isolation exampleDeps exampleInstance previousVersion 1500000000
    1600000000 "registration" "login" "AQID|registration|0||1500000000|cozy.example|0|id0|login"
    rfl (by decide) (by decide)
  ⟨h.2.1 "refresh" (by decide), h.2.2.1⟩

theorem example_codec_rejects :
    SignatureRejected exampleDeps exampleInstance.OAuthSecret otherInstance.OAuthSecret := by
  intro now claims token hsign
  have hA : Base64Encode exampleInstance.OAuthSecret = "AQID" := by decide
  have hB : Base64Encode otherInstance.OAuthSecret = "BAUG" := by decide
  have htoken : ∃ rest : String, token = "AQID" ++ rest := by
    simp only [exampleDeps, exampleSign, hA, Except.ok.injEq] at hsign
    refine ⟨"|" ++ claims.Audience ++ "|" ++ Itoa claims.ExpiresAt ++ "|" ++ claims.Id
      ++ "|" ++ Itoa claims.IssuedAt ++ "|" ++ claims.Issuer ++ "|" ++ Itoa claims.NotBefore
      ++ "|" ++ claims.Subject ++ "|" ++ claims.Scope, ?_⟩
    rw [← hsign]
    simp only [String.append_assoc]
  obtain ⟨rest, rfl⟩ := htoken
  show (exampleParseJWT otherInstance.OAuthSecret now ("AQID" ++ rest)).1 ≠ none
  unfold exampleParseJWT
  rw [hB]
  simp [hasPrefixChars]

/-- C14. Tenant isolation, over the codec contract of section 4.3 of the spec
(`SignatureRejected`: a token signed with the key of A does not parse with the
key of B when the keys differ). For two instances A and B with different OAuth
secrets, a token signed under A's key, by `CreateJWT` on A or as the
registration token of a successful `Create` on A, fails to parse under B's
key, and `ValidToken` on B answers `false` for it, for every client and every
expected audience. -/
theorem tenant_isolation {σ : Type} (d : Deps σ) (A B : Instance)
    (hkeys : A.OAuthSecret ≠ B.OAuthSecret)
    (hcodec : A.OAuthSecret ≠ B.OAuthSecret →
      SignatureRejected d A.OAuthSecret B.OAuthSecret) :
    (∀ (c : Client) (issuedAt : Int) (a s token : String),
      CreateJWT d A c issuedAt a s = Except.ok token →
      ∀ (other : Client) (now : Int) (b : String),
        (d.ParseJWT B.OAuthSecret now token).1 ≠ none ∧
        (ValidToken d B other now b token).2 = false) ∧
    (∀ (c c1 : Client) (w w1 : World σ), Create d A c w = (none, c1, w1) →
      ∀ (other : Client) (now : Int) (b : String),
        (d.ParseJWT B.OAuthSecret now c1.RegistrationToken).1 ≠ none ∧
        (ValidToken d B other now b c1.RegistrationToken).2 = false) := by
  have hrej := hcodec hkeys
  have key : ∀ (claims : Claims) (token : String),
      d.NewJWT A.OAuthSecret claims = Except.ok token →
      ∀ (other : Client) (now : Int) (b : String),
        (d.ParseJWT B.OAuthSecret now token).1 ≠ none ∧
        (ValidToken d B other now b token).2 = false := by
    intro claims token hsign other now b
    have hfail := hrej now claims token hsign
    refine ⟨hfail, ?_⟩
    by_cases ht : token = ""
    · rw [ht, validToken_empty]
    · rw [validToken_parse_error d B other now b token ht hfail]
  constructor
  · intro c issuedAt a s token hsign
    exact key _ token hsign
  · intro c c1 w w1 hC
    obtain ⟨L, db0, id, rev, db, token, _, hj, rfl⟩ := create_success d A c c1 w w1 hC
    exact key _ token hj

theorem tenant_isolation_witness :
    (ValidToken exampleDeps otherInstance previousVersion 1600000000 "registration"
      "AQID|registration|0||1500000000|cozy.example|0|id0|").2 = false ∧
    (ValidToken exampleDeps otherInstance previousVersion 1600000000 "registration"
      (Create exampleDeps exampleInstance noisyCandidate exampleWorld).2.1.RegistrationToken).2
      = false :=
  have h := tenant_isolation exampleDeps exampleInstance otherInstance (by decide)
    (fun _ => example_codec_rejects)
  ⟨(h.1 previousVersion 1500000000 "registration" ""
      "AQID|registration|0||1500000000|cozy.example|0|id0|" rfl
      previousVersion 1600000000 "registration").2,
   (h.2 noisyCandidate (Create exampleDeps exampleInstance noisyCandidate exampleWorld).2.1
      exampleWorld (Create exampleDeps exampleInstance noisyCandidate exampleWorld).2.2
      (Prod.ext (by decide) rfl) previousVersion 1600000000 "registration").2⟩

/-! ## `CouchID` and `ClientID` -/

theorem createWith_mem_clientID {d : Deps MemStore} (hC : d.CreateDoc = MemStore.create)
    (i : Instance) (c : Client) (L : List Client) (w : World MemStore)
    (hinv : ∀ r ∈ w.db.docs, r.ClientID = "") :
    ∀ r ∈ (createWith d i c L w).2.2.db.docs, r.ClientID = "" := by
  unfold createWith
  simp only [hC, MemStore.create]
  have hrec : ∀ r ∈ (GenerateRandomBytes w ClientSecretLen).2.db.docs ++
      [{ createRecord c L (GenerateRandomBytes w ClientSecretLen).1 with
          CouchID := "id" ++ decimal (GenerateRandomBytes w ClientSecretLen).2.db.nextID,
          CouchRev := "1-" ++ ("id" ++ decimal (GenerateRandomBytes w ClientSecretLen).2.db.nextID) }],
      r.ClientID = "" := by
    intro r hr
    rcases List.mem_append.1 hr with hr | hr
    · exact hinv r hr
    · have : r = _ := List.mem_singleton.1 hr
      rw [this]
      rfl
  split <;> exact hrec

theorem create_mem_clientID {d : Deps MemStore} (hF : d.FindDocs = MemStore.find)
    (hC : d.CreateDoc = MemStore.create) (i : Instance) (c : Client) (w : World MemStore)
    (hinv : ∀ r ∈ w.db.docs, r.ClientID = "") :
    ∀ r ∈ (Create d i c w).2.2.db.docs, r.ClientID = "" := by
  rcases hc : checkMandatoryFields d i c with ⟨e, c2⟩
  cases e with
  | some err =>
    have : Create d i c w = (some err, c2, w) := by
      simp [Create, hc]
    rw [this]
    exact hinv
  | none =>
    have hvalid : (checkMandatoryFields d i c).1 = none := by rw [hc]
    have hfind : d.FindDocs w.db
        { UseIndex := "by-client-name",
          Selector := Filter.StartWith "client_name" c.ClientName, Limit := 0 } =
        (Except.ok (w.db.docs.filter (fun r => HasPrefix r.ClientName c.ClientName)), w.db) := by
      rw [hF, memFind_startWith]
    rw [(create_name d i c w _ w.db hvalid hfind).2]
    exact createWith_mem_clientID hC i _ _ _ hinv

theorem prepareUpdate_db {σ : Type} (d : Deps σ) (i : Instance) (c old : Client) (w : World σ) :
    (prepareUpdate d i c old w).2.2.db = w.db := by
  unfold prepareUpdate
  split_ifs
  · rfl
  · split
    · rfl
    · split_ifs <;> rfl

theorem prepareUpdate_clientID {σ : Type} (d : Deps σ) (i : Instance) (c old : Client)
    (w : World σ) (h : (prepareUpdate d i c old w).1 = none) :
    (prepareUpdate d i c old w).2.1.ClientID = "" := by
  obtain ⟨c1, hc1⟩ := prepareUpdate_record d i c old (prepareUpdate d i c old w).2.1 w
    (prepareUpdate d i c old w).2.2 (Prod.ext h rfl)
  rw [hc1]
  exact (pinFields_fields c1 old).2.2.2.1

theorem memUpdate_clientID (s : MemStore) (doc : Client) (hdoc : doc.ClientID = "")
    (hinv : ∀ r ∈ s.docs, r.ClientID = "") :
    ∀ r ∈ (MemStore.update s doc).2.docs, r.ClientID = "" := by
  unfold MemStore.update
  split
  · exact hinv
  · split_ifs
    · intro r hr
      simp only [List.mem_map] at hr
      obtain ⟨x, hx, rfl⟩ := hr
      split_ifs
      · exact hdoc
      · exact hinv x hx
    · exact hinv

theorem update_mem_clientID {d : Deps MemStore} (hU : d.UpdateDoc = MemStore.update)
    (i : Instance) (c old : Client) (w : World MemStore)
    (hinv : ∀ r ∈ w.db.docs, r.ClientID = "") :
    ∀ r ∈ (Update d i c old w).2.2.db.docs, r.ClientID = "" := by
  have hdb := prepareUpdate_db d i c old w
  have hid := prepareUpdate_clientID d i c old w
  unfold Update
  rcases hp : prepareUpdate d i c old w with ⟨e, doc, w1⟩
  rw [hp] at hdb hid
  simp only at hdb hid
  cases e with
  | some err =>
    simp only
    rw [hdb]
    exact hinv
  | none =>
    simp only
    have hm := memUpdate_clientID w1.db doc (hid rfl) (by rw [hdb]; exact hinv)
    unfold writeUpdate
    rw [hU]
    rcases hu : MemStore.update w1.db doc with ⟨res, db⟩
    rw [hu] at hm
    cases res with
    | error e => exact hm
    | ok rev => exact hm

theorem writtenByRegistry_clientID {d : Deps MemStore} (hF : d.FindDocs = MemStore.find)
    (hC : d.CreateDoc = MemStore.create) (hU : d.UpdateDoc = MemStore.update)
    (i : Instance) (w : World MemStore) (h : WrittenByRegistry d i w) :
    ∀ r ∈ w.db.docs, r.ClientID = "" := by
  induction h with
  | empty w hw =>
    intro r hr
    rw [hw] at hr
    cases hr
  | create w c _ ih => exact create_mem_clientID hF hC i c w ih
  | update w c old _ ih => exact update_mem_clientID hU i c old w ih

theorem findClient_of_stored {σ : Type} (d : Deps σ) (id : String) (w w1 : World σ)
    (c : Client) (h : FindClient d id w = (Except.ok c, w1)) :
    ∃ doc db, d.GetDoc w.db id = (Except.ok doc, db) ∧
      c = (if doc.ClientID = "" then { doc with ClientID := doc.CouchID } else doc) := by
  unfold FindClient at h
  rcases hg : d.GetDoc w.db id with ⟨res, db⟩
  rw [hg] at h
  cases res with
  | error e => simp at h
  | ok doc =>
    simp only [Prod.mk.injEq, Except.ok.injEq] at h
    exact ⟨doc, db, rfl, h.1.symm⟩

theorem memGet_spec (s : MemStore) (id : String) (doc : Client) (s1 : MemStore)
    (h : MemStore.get s id = (Except.ok doc, s1)) : doc ∈ s.docs ∧ doc.CouchID = id := by
  unfold MemStore.get at h
  cases hf : s.docs.find? (fun r => decide (r.CouchID = id)) with
  | none => rw [hf] at h; simp at h
  | some r =>
    rw [hf] at h
    simp only [Prod.mk.injEq, Except.ok.injEq] at h
    obtain ⟨rfl, _⟩ := h
    refine ⟨List.mem_of_find?_eq_some hf, ?_⟩
    have := List.find?_some hf
    simpa using this

/-- C20. `CouchID` and `ClientID` are the same identifier. On the in-memory
store, in every world whose records were all written by `Create` and `Update`
(which persist an empty `ClientID`), a client that `FindClient` returns
successfully has `ClientID` equal to its `CouchID`, and both are the
identifier that was looked up. -/
theorem findClient_ids {d : Deps MemStore} (hF : d.FindDocs = MemStore.find)
    (hC : d.CreateDoc = MemStore.create) (hU : d.UpdateDoc = MemStore.update)
    (hG : d.GetDoc = MemStore.get) (i : Instance) (w w1 : World MemStore)
    (hw : WrittenByRegistry d i w) (id : String) (c : Client)
    (h : FindClient d id w = (Except.ok c, w1)) :
    c.ClientID = c.CouchID ∧ c.CouchID = id := by
  obtain ⟨doc, db, hg, rfl⟩ := findClient_of_stored d id w w1 c h
  rw [hG] at hg
  obtain ⟨hmem, hdoc⟩ := memGet_spec w.db id doc db hg
  have hempty := writtenByRegistry_clientID hF hC hU i w hw doc hmem
  rw [if_pos hempty]
  exact ⟨rfl, hdoc⟩

theorem findClient_ids_witness :
    FindClient exampleDeps "id0"
        (Create exampleDeps exampleInstance noisyCandidate exampleWorld).2.2 =
      (Except.ok registeredFoo,
       (Create exampleDeps exampleInstance noisyCandidate exampleWorld).2.2) ∧
    registeredFoo.ClientID = registeredFoo.CouchID ∧ registeredFoo.CouchID = "id0" :=
  ⟨rfl,
   findClient_ids (d := exampleDeps) rfl rfl rfl rfl exampleInstance
     (Create exampleDeps exampleInstance noisyCandidate exampleWorld).2.2
     (Create exampleDeps exampleInstance noisyCandidate exampleWorld).2.2
     (WrittenByRegistry.create exampleWorld noisyCandidate
       (WrittenByRegistry.empty exampleWorld rfl))
     "id0" registeredFoo rfl⟩

/-! ## Errors of `Create` -/

theorem check_error_code {σ : Type} (d : Deps σ) (i : Instance) (c c2 : Client)
    (err : ClientRegistrationError) (h : checkMandatoryFields d i c = (some err, c2)) :
    err.Code = 400 := by
  unfold checkMandatoryFields at h
  cases hf : firstInvalidRedirect d i c.RedirectURIs with
  | some v =>
    simp only [hf] at h
    split_ifs at h <;>
      (have h1 := (Prod.mk.inj h).1
       cases h1
       rfl)
  | none =>
    simp only [hf] at h
    split_ifs at h <;>
      (have h1 := (Prod.mk.inj h).1
       first | (cases h1; rfl) | cases h1)

theorem createWith_error {σ : Type} (d : Deps σ) (i : Instance) (c c1 : Client)
    (L : List Client) (w w1 : World σ) (err : ClientRegistrationError)
    (h : createWith d i c L w = (some err, c1, w1)) :
    err = internalServerError ∧
    ((∃ e db, d.CreateDoc w.db (createRecord c L (GenerateRandomBytes w ClientSecretLen).1)
          = (Except.error e, db) ∧
        c1 = createRecord c L (GenerateRandomBytes w ClientSecretLen).1 ∧ w1.db = db) ∨
     (∃ id rev db e,
        d.CreateDoc w.db (createRecord c L (GenerateRandomBytes w ClientSecretLen).1)
          = (Except.ok (id, rev), db) ∧
        d.NewJWT i.OAuthSecret (registrationClaims i w.now id) = Except.error e ∧
        c1 = { createRecord c L (GenerateRandomBytes w ClientSecretLen).1 with
               CouchID := id, CouchRev := rev, RegistrationToken := "" } ∧
        w1.db = db)) := by
  unfold createWith at h
  simp only at h
  have hdb : (GenerateRandomBytes w ClientSecretLen).2.db = w.db := rfl
  have hnow : (GenerateRandomBytes w ClientSecretLen).2.now = w.now := rfl
  rw [hdb] at h
  rcases hcd : d.CreateDoc w.db (createRecord c L (GenerateRandomBytes w ClientSecretLen).1)
    with ⟨res, db⟩
  rw [hcd] at h
  cases res with
  | error e =>
    simp only [Prod.mk.injEq, Option.some.injEq] at h
    obtain ⟨h1, h2, h3⟩ := h
    exact ⟨h1.symm, Or.inl ⟨e, db, rfl, h2.symm, by rw [← h3]⟩⟩
  | ok p =>
    obtain ⟨id, rev⟩ := p
    simp only [hnow] at h
    cases hj : d.NewJWT i.OAuthSecret (registrationClaims i w.now id) with
    | ok token => rw [hj] at h; simp at h
    | error e =>
      rw [hj] at h
      simp only [Prod.mk.injEq, Option.some.injEq] at h
      obtain ⟨h1, h2, h3⟩ := h
      exact ⟨h1.symm, Or.inr ⟨id, rev, db, e, rfl, hj, h2.symm, by rw [← h3]⟩⟩
/-- C21. Errors of `Create`, over a store whose lookups leave it as it is and
whose refused creations persist nothing. Every error is a 400 error or the 500
`internal_server_error`. A 400 error is returned with the world as it was. A
500 error has one of three causes: the lookup failed with an error that is not
a no-database error, or `couchdb.CreateDoc` failed, and in both cases the
store is as it was; or the signing of the registration token failed after
`couchdb.CreateDoc` succeeded, and then the store is the one left by that
write (the new record stays), and the candidate is left with the `CouchID`
the store assigned, an empty `ClientID` and an empty `RegistrationToken`. A
lookup that fails with a no-database error is not a failure: `Create` goes on
exactly as for a lookup without matches, and keeps the candidate's name. -/
theorem create_error_atomicity {σ : Type} (d : Deps σ) (i : Instance) (c : Client)
    (w : World σ) (hread : ∀ s req, (d.FindDocs s req).2 = s)
    (hfail : ∀ s doc e s1, d.CreateDoc s doc = (Except.error e, s1) → s1 = s) :
    (∀ err c1 w1, Create d i c w = (some err, c1, w1) →
      (err.Code = 400 ∨ err = internalServerError) ∧
      (err.Code = 400 → w1 = w) ∧
      (err = internalServerError →
        ((∃ e, (d.FindDocs w.db
              { UseIndex := "by-client-name",
                Selector := Filter.StartWith "client_name" c.ClientName, Limit := 0 }).1
              = Except.error e ∧ d.IsNoDatabaseError e = false) ∧ w1.db = w.db) ∨
        ((∃ doc e, d.CreateDoc w.db doc = (Except.error e, w.db) ∧ c1 = doc) ∧ w1.db = w.db) ∨
        (∃ doc id rev db e, d.CreateDoc w.db doc = (Except.ok (id, rev), db) ∧
          d.NewJWT i.OAuthSecret (registrationClaims i w.now id) = Except.error e ∧
          w1.db = db ∧ c1.CouchID = id ∧ c1.ClientID = "" ∧ c1.RegistrationToken = ""))) ∧
    (∀ res, (checkMandatoryFields d i c).1 = none →
      (d.FindDocs w.db
        { UseIndex := "by-client-name",
          Selector := Filter.StartWith "client_name" c.ClientName, Limit := 0 }).1 = res →
      (res = Except.ok [] ∨ ∃ e, res = Except.error e ∧ d.IsNoDatabaseError e = true) →
      Create d i c w = createWith d i (lowered d c) [] w ∧
      (Create d i c w).2.1.ClientName = c.ClientName) := by
  have key : ∀ (L : List Client) (err : ClientRegistrationError) (c1 : Client) (w1 : World σ),
      createWith d i (lowered d c) L w = (some err, c1, w1) →
      err = internalServerError ∧
      (((∃ doc e, d.CreateDoc w.db doc = (Except.error e, w.db) ∧ c1 = doc) ∧ w1.db = w.db) ∨
       (∃ doc id rev db e, d.CreateDoc w.db doc = (Except.ok (id, rev), db) ∧
          d.NewJWT i.OAuthSecret (registrationClaims i w.now id) = Except.error e ∧
          w1.db = db ∧ c1.CouchID = id ∧ c1.ClientID = "" ∧ c1.RegistrationToken = "")) := by
    intro L err c1 w1 h
    obtain ⟨he, hcase⟩ := createWith_error d i _ c1 L w w1 err h
    refine ⟨he, ?_⟩
    rcases hcase with ⟨e, db, hcd, hc1, hdb⟩ | ⟨id, rev, db, e, hcd, hj, hc1, hdb⟩
    · have hsame := hfail _ _ _ _ hcd
      rw [hsame] at hcd hdb
      exact Or.inl ⟨⟨_, e, hcd, hc1⟩, hdb⟩
    · refine Or.inr ⟨_, id, rev, db, e, hcd, hj, hdb, ?_, ?_, ?_⟩ <;> (subst hc1; rfl)
  constructor
  · intro err c1 w1 h
    unfold Create at h
    rcases hc : checkMandatoryFields d i c with ⟨e0, c2⟩
    rw [hc] at h
    cases e0 with
    | some err0 =>
      simp only [Prod.mk.injEq, Option.some.injEq] at h
      obtain ⟨h1, _, h3⟩ := h
      have hcode := check_error_code d i c c2 err0 hc
      rw [h1] at hcode
      refine ⟨Or.inl hcode, fun _ => h3.symm, fun hise => ?_⟩
      rw [hise] at hcode
      exact absurd hcode (by decide)
    | none =>
      have hc2 := check_accepts d i c (by rw [hc])
      rw [hc] at hc2
      obtain rfl : c2 = lowered d c := (Prod.mk.inj hc2).2
      simp only at h
      have hreq : (d.FindDocs w.db
          { UseIndex := "by-client-name",
            Selector := Filter.StartWith "client_name" (lowered d c).ClientName,
            Limit := 0 }).2 = w.db := hread _ _
      rcases hf : d.FindDocs w.db
          { UseIndex := "by-client-name",
            Selector := Filter.StartWith "client_name" (lowered d c).ClientName, Limit := 0 }
        with ⟨res, db0⟩
      rw [hf] at h hreq
      simp only at hreq
      subst hreq
      have hfst : (d.FindDocs w.db
          { UseIndex := "by-client-name",
            Selector := Filter.StartWith "client_name" c.ClientName, Limit := 0 }).1 = res := by
        show (d.FindDocs w.db
          { UseIndex := "by-client-name",
            Selector := Filter.StartWith "client_name" (lowered d c).ClientName,
            Limit := 0 }).1 = res
        rw [hf]
      have fromKey : ∀ L, createWith d i (lowered d c) L w = (some err, c1, w1) →
          (err.Code = 400 ∨ err = internalServerError) ∧
          (err.Code = 400 → w1 = w) ∧
          (err = internalServerError →
            ((∃ e, (d.FindDocs w.db
                  { UseIndex := "by-client-name",
                    Selector := Filter.StartWith "client_name" c.ClientName, Limit := 0 }).1
                  = Except.error e ∧ d.IsNoDatabaseError e = false) ∧ w1.db = w.db) ∨
            ((∃ doc e, d.CreateDoc w.db doc = (Except.error e, w.db) ∧ c1 = doc) ∧
              w1.db = w.db) ∨
            (∃ doc id rev db e, d.CreateDoc w.db doc = (Except.ok (id, rev), db) ∧
              d.NewJWT i.OAuthSecret (registrationClaims i w.now id) = Except.error e ∧
              w1.db = db ∧ c1.CouchID = id ∧ c1.ClientID = "" ∧
              c1.RegistrationToken = "")) := by
        intro L hL
        obtain ⟨he, hcase⟩ := key L err c1 w1 hL
        refine ⟨Or.inr he, fun h400 => ?_, fun _ => Or.inr hcase⟩
        rw [he] at h400
        exact absurd h400 (by decide)
      cases res with
      | error e =>
        simp only at h
        split_ifs at h with hno
        · simp only [Prod.mk.injEq, Option.some.injEq] at h
          obtain ⟨h1, _, h3⟩ := h
          refine ⟨Or.inr h1.symm, fun h400 => ?_, fun _ => Or.inl ⟨⟨e, hfst, ?_⟩, ?_⟩⟩
          · rw [← h1] at h400
            exact absurd h400 (by decide)
          · simpa using hno
          · rw [← h3]
        · exact fromKey [] h
      | ok results => exact fromKey results h
  · intro res hvalid hres hcase
    have hc := check_accepts d i c hvalid
    have hreq : (d.FindDocs w.db
        { UseIndex := "by-client-name",
          Selector := Filter.StartWith "client_name" (lowered d c).ClientName,
          Limit := 0 }).2 = w.db := hread _ _
    have hres2 : (d.FindDocs w.db
        { UseIndex := "by-client-name",
          Selector := Filter.StartWith "client_name" (lowered d c).ClientName,
          Limit := 0 }).1 = res := hres
    have hC : Create d i c w = createWith d i (lowered d c) [] w := by
      unfold Create
      rw [hc]
      simp only
      rcases hf : d.FindDocs w.db
          { UseIndex := "by-client-name",
            Selector := Filter.StartWith "client_name" (lowered d c).ClientName, Limit := 0 }
        with ⟨res0, db0⟩
      rw [hf] at hreq hres2
      simp only at hreq hres2
      subst hreq
      rcases hcase with hok | ⟨e, he, hno⟩
      · rw [hres2, hok]
      · rw [hres2, he]
        simp only [hno, Bool.not_true, Bool.false_eq_true, if_false]
    refine ⟨hC, ?_⟩
    rw [hC, createWith_name]
    exact dedupName_of_absent _ [] (by simp)

theorem memCreate_never_fails (s s1 : MemStore) (doc : Client) (e : CouchError)
    (h : MemStore.create s doc = (Except.error e, s1)) : s1 = s := by
  simp [MemStore.create] at h

theorem create_error_atomicity_witness :
    ((Create signFailingDeps exampleInstance noisyCandidate exampleWorld).1 =
        some internalServerError ∧
      storedNames (Create signFailingDeps exampleInstance noisyCandidate exampleWorld).2.2 =
        ["Foo"] ∧
      (Create signFailingDeps exampleInstance noisyCandidate exampleWorld).2.1.CouchID = "id0" ∧
      (Create createFailingDeps exampleInstance noisyCandidate exampleWorld).1 =
        some internalServerError ∧
      storedNames (Create createFailingDeps exampleInstance noisyCandidate exampleWorld).2.2 =
        [] ∧
      (Create lookupFailingDeps exampleInstance noisyCandidate exampleWorld).1 =
        some internalServerError ∧
      storedNames (Create lookupFailingDeps exampleInstance noisyCandidate exampleWorld).2.2 =
        []) ∧
    (internalServerError.Code = 400 →
      (Create signFailingDeps exampleInstance noisyCandidate exampleWorld).2.2 = exampleWorld) ∧
    Create noDatabaseDeps exampleInstance noisyCandidate exampleWorld =
      createWith noDatabaseDeps exampleInstance (lowered noDatabaseDeps noisyCandidate) []
        exampleWorld :=
  ⟨by decide,
   ((create_error_atomicity signFailingDeps exampleInstance noisyCandidate exampleWorld
      (fun _ _ => rfl) (fun s doc e s1 h => memCreate_never_fails s s1 doc e h)).1
      internalServerError
      (Create signFailingDeps exampleInstance noisyCandidate exampleWorld).2.1
      (Create signFailingDeps exampleInstance noisyCandidate exampleWorld).2.2
      (Prod.ext (by decide) rfl)).2.1,
   ((create_error_atomicity noDatabaseDeps exampleInstance noisyCandidate exampleWorld
      (fun _ _ => rfl) (fun s doc e s1 h => memCreate_never_fails s s1 doc e h)).2
      (Except.error { StatusCode := 404, Name := "not_found", Reason := "no_db_file" })
      (by decide) rfl (Or.inr ⟨_, rfl, by decide⟩)).1⟩

/-! ## Successive registrations of one name -/

theorem hasPrefix_dedupName (N : String) (L : List Client) :
    HasPrefix (dedupName N L) N = true := by
  unfold dedupName
  simp only
  split_ifs
  · exact hasPrefix_suffixed N _
  · exact hasPrefix_self N

theorem registerTimes_matches {d : Deps MemStore} (hF : d.FindDocs = MemStore.find)
    (hC : d.CreateDoc = MemStore.create) (i : Instance) (c : Client) (w : World MemStore)
    (hvalid : (checkMandatoryFields d i c).1 = none)
    (hfresh : ∀ r ∈ w.db.docs, HasPrefix r.ClientName c.ClientName = false) (j : Nat) :
    ((registerTimes d i c j w).db.docs.filter
      (fun r => HasPrefix r.ClientName c.ClientName)).length = j := by
  induction j with
  | zero =>
    have : (registerTimes d i c 0 w).db.docs.filter
        (fun r => HasPrefix r.ClientName c.ClientName) = [] := by
      rw [List.filter_eq_nil_iff]
      intro r hr
      rw [show registerTimes d i c 0 w = w from rfl] at hr
      rw [hfresh r hr]
      simp
    rw [this]
    rfl
  | succ j ih =>
    obtain ⟨_, record, hrec, hdocs⟩ :=
      create_mem_step hF hC i c (registerTimes d i c j w) hvalid
    show ((Create d i c (registerTimes d i c j w)).2.2.db.docs.filter
      (fun r => HasPrefix r.ClientName c.ClientName)).length = j + 1
    rw [hdocs, List.filter_append, List.length_append, ih]
    have hp : HasPrefix record.ClientName c.ClientName = true := by
      rw [hrec]
      exact hasPrefix_dedupName _ _
    simp [List.filter, hp]

theorem lookup_length {d : Deps MemStore} (hF : d.FindDocs = MemStore.find)
    (hC : d.CreateDoc = MemStore.create) (i : Instance) (c : Client) (w : World MemStore)
    (hvalid : (checkMandatoryFields d i c).1 = none)
    (hfresh : ∀ r ∈ w.db.docs, HasPrefix r.ClientName c.ClientName = false) (j : Nat)
    (L : List Client) (db : MemStore)
    (h : d.FindDocs (registerTimes d i c j w).db
      { UseIndex := "by-client-name", Selector := Filter.StartWith "client_name" c.ClientName,
        Limit := 0 } = (Except.ok L, db)) : L.length = j := by
  rw [hF, memFind_startWith] at h
  simp only [Prod.mk.injEq, Except.ok.injEq] at h
  rw [← h.1]
  exact registerTimes_matches hF hC i c w hvalid hfresh j

/-- C5. On a store that holds no client whose name starts with `N` and whose
prefix query returns every stored client whose name starts with `N`, `k`
successive successful calls of `Create` with the name `N` give the first
client the name `N` and, for every `k ≥ 2`, the `k`-th client the name
`N + "-" + decimal k`. The slices of results that the lookups hand to `Create`
are Go slices: their length is below `maxSliceLen`. -/
theorem successive_registration_names {d : Deps MemStore} (hF : d.FindDocs = MemStore.find)
    (hC : d.CreateDoc = MemStore.create) (i : Instance) (c : Client) (w : World MemStore)
    (hfresh : ∀ r ∈ w.db.docs, HasPrefix r.ClientName c.ClientName = false)
    (k : Nat) (hk1 : 1 ≤ k)
    (hsucc : ∀ j, j < k → (Create d i c (registerTimes d i c j w)).1 = none)
    (hslice : ∀ j, j < k → ∀ L db,
      d.FindDocs (registerTimes d i c j w).db
        { UseIndex := "by-client-name", Selector := Filter.StartWith "client_name" c.ClientName,
          Limit := 0 } = (Except.ok L, db) → L.length < maxSliceLen) :
    (Create d i c w).2.1.ClientName = c.ClientName ∧
    (2 ≤ k →
      (Create d i c (registerTimes d i c (k - 1) w)).2.1.ClientName =
        c.ClientName ++ "-" ++ decimal k) := by
  have hvalid : (checkMandatoryFields d i c).1 = none :=
    create_valid_of_success d i c w (hsucc 0 (by omega))
  constructor
  · rw [(create_mem_step hF hC i c w hvalid).1]
    exact dedupName_fresh_store _ _ hfresh
  · intro hk2
    have hfind : d.FindDocs (registerTimes d i c (k - 1) w).db
        { UseIndex := "by-client-name",
          Selector := Filter.StartWith "client_name" c.ClientName, Limit := 0 } =
        (Except.ok ((registerTimes d i c (k - 1) w).db.docs.filter
          (fun r => HasPrefix r.ClientName c.ClientName)), (registerTimes d i c (k - 1) w).db) := by
      rw [hF, memFind_startWith]
    have hlen := hslice (k - 1) (by omega) _ _ hfind
    rw [registerTimes_matches hF hC i c w hvalid hfresh (k - 1)] at hlen
    have hk : k < 2 ^ 63 := by
      unfold maxSliceLen at hlen
      omega
    rw [kth_registration_name hF hC i c w hvalid hfresh k hk2 (le_of_lt hk)]
    have hcast : (((k - 1 : Nat) : Int) + 1) = ((k : Nat) : Int) := by omega
    rw [hcast, itoa_wrap_nat k hk]

theorem successive_registration_names_witness :
    (Create exampleDeps exampleInstance appCandidate exampleWorld).2.1.ClientName = "App" ∧
    (Create exampleDeps exampleInstance appCandidate
      (registerTimes exampleDeps exampleInstance appCandidate 1 exampleWorld)).2.1.ClientName
      = "App-2" ∧
    (Create exampleDeps exampleInstance appCandidate
      (registerTimes exampleDeps exampleInstance appCandidate 2 exampleWorld)).2.1.ClientName
      = "App-3" :=
  have hfit : ∀ j, j < 3 → ∀ L db,
      exampleDeps.FindDocs (registerTimes exampleDeps exampleInstance appCandidate j
        exampleWorld).db
        { UseIndex := "by-client-name",
          Selector := Filter.StartWith "client_name" appCandidate.ClientName, Limit := 0 }
        = (Except.ok L, db) → L.length < maxSliceLen :=
    fun j hj L db h => by
      rw [lookup_length (d := exampleDeps) rfl rfl exampleInstance appCandidate exampleWorld
        (by decide) (fun r hr => by cases hr) j L db h]
      unfold maxSliceLen
      omega
  ⟨(successive_registration_names (d := exampleDeps) rfl rfl exampleInstance appCandidate
      exampleWorld (fun r hr => by cases hr) 3 (by decide) (by decide) hfit).1,
   (successive_registration_names (d := exampleDeps) rfl rfl exampleInstance appCandidate
      exampleWorld (fun r hr => by cases hr) 2 (by decide) (by decide)
      (fun j hj => hfit j (by omega))).2 (by decide),
   (successive_registration_names (d := exampleDeps) rfl rfl exampleInstance appCandidate
      exampleWorld (fun r hr => by cases hr) 3 (by decide) (by decide) hfit).2 (by decide)⟩

/-! ## What a refused token returns -/

/-- C12, counterexample. A registration token presented for the audience
"refresh" is refused, and the call returns its parsed claims (audience
"registration", issuer, subject, issue time) along with `false`; an empty
token is refused with the zero claims. The caller of a refused call thus
receives more than the boolean, and two refused calls return different
results. -/
theorem validToken_refusal_returns_claims :
    ValidToken exampleDeps exampleInstance previousVersion 1600000000 "refresh"
        "AQID|registration|0||1500000000|cozy.example|0|id0|" =
      (registrationClaims exampleInstance 1500000000 "id0", false) ∧
    ValidToken exampleDeps exampleInstance previousVersion 1600000000 "refresh" "" =
      (zeroClaims, false) ∧
    registrationClaims exampleInstance 1500000000 "id0" ≠ zeroClaims ∧
    ValidToken exampleDeps exampleInstance previousVersion 1600000000 "refresh"
        "AQID|registration|0||1500000000|cozy.example|0|id0|" ≠
      ValidToken exampleDeps exampleInstance previousVersion 1600000000 "refresh" "" := by
  decide

end OAuth
